import Mathlib

/-!
Verification of the maelstrom agent-cli bridge.

The bridge consists of an NDJSON framing layer over a Unix socket
(transport.ts), a protocol message set (protocol.ts), a per-conversation
session that drives the agent engine and parks its permission decisions as
pending requests (session.ts), and a broker that owns the session registry and
routes inbound messages (server.ts).  This file embeds those components
shallowly and proves the behaviours the specification claims for them.

Modelling conventions:
* JavaScript runtime values crossing the wire are `JsValue`.  A number is
  carried as the decimal lexeme `JSON.stringify` prints for it, so the codec
  theorems speak about the exact bytes on the wire without IEEE semantics.
* Byte buffers are `List Char` (the transport decodes chunks as UTF-8 and the
  framer works on the resulting string).
* Asynchronous effects (socket writes, promise resolutions, engine
  invocations, console logging) are reified as an ordered `Action` list that
  each modelled operation returns next to its state, in emission order.
-/

namespace Maelstrom

/-- A JavaScript value as it travels over the NDJSON wire.  `num` holds the
decimal rendering of the number (the lexeme emitted by `JSON.stringify`);
`obj` keeps its properties in insertion order, as JS objects do. -/
inductive JsValue where
  | null
  | bool (b : Bool)
  | num (lit : String)
  | str (s : String)
  | arr (items : List JsValue)
  | obj (fields : List (String × JsValue))

/-- A JS object's property list. -/
abbrev JsObj := List (String × JsValue)

/-- Property read `o[key]`: `none` models JS `undefined` (key absent). -/
def jsGet (fields : JsObj) (key : String) : Option JsValue :=
  match fields with
  | [] => none
  | (k, v) :: rest => if k = key then some v else jsGet rest key

/-- The object produced by the spread-and-assign literal: all properties of
`fields` in order, with `key` bound to `v` — overwritten in place when it was
already present, appended otherwise (JS property-order semantics). -/
def jsSet (fields : JsObj) (key : String) (v : JsValue) : JsObj :=
  if fields.any (fun p => p.1 = key) then
    fields.map (fun p => if p.1 = key then (key, v) else p)
  else fields ++ [(key, v)]

/-! ## JSON.stringify -/

/-- Lower-case hexadecimal digit for `n < 16`. -/
def hexDigitChar (n : Nat) : Char :=
  if n < 10 then Char.ofNat ('0'.toNat + n) else Char.ofNat ('a'.toNat + n - 10)

/-- How `JSON.stringify` quotes one character inside a string literal:
`"` and `\` get a backslash, the five named control escapes are used where
they exist, any other control character becomes `\u00xx` (lower-case hex),
and everything else is emitted verbatim. -/
def escapeRune (c : Char) : List Char :=
  if c = '"' then ['\\', '"']
  else if c = '\\' then ['\\', '\\']
  else if c = '\x08' then ['\\', 'b']
  else if c = '\x09' then ['\\', 't']
  else if c = '\x0a' then ['\\', 'n']
  else if c = '\x0c' then ['\\', 'f']
  else if c = '\x0d' then ['\\', 'r']
  else if c.toNat < 0x20 then
    ['\\', 'u', '0', '0', hexDigitChar (c.toNat / 16), hexDigitChar (c.toNat % 16)]
  else [c]

/-- JSON-escape a whole character sequence. -/
def escList : List Char → List Char
  | [] => []
  | c :: cs => escapeRune c ++ escList cs

/-- A JSON string literal: quote, escaped body, quote. -/
def encString (s : String) : List Char :=
  '"' :: (escList s.data ++ ['"'])

mutual

/-- The characters `JSON.stringify` emits for a value (no whitespace; object
properties in insertion order; a number prints as its stored lexeme). -/
def encVal : JsValue → List Char
  | .null => ['n', 'u', 'l', 'l']
  | .bool false => ['f', 'a', 'l', 's', 'e']
  | .bool true => ['t', 'r', 'u', 'e']
  | .num lit => lit.data
  | .str s => encString s
  | .arr items => '[' :: (encItems items ++ [']'])
  | .obj fields => '{' :: (encProps fields ++ ['}'])

/-- Comma-separated array elements. -/
def encItems : List JsValue → List Char
  | [] => []
  | [v] => encVal v
  | v :: vs => encVal v ++ ',' :: encItems vs

/-- Comma-separated `"key":value` object properties. -/
def encProps : List (String × JsValue) → List Char
  | [] => []
  | [(k, v)] => encString k ++ ':' :: encVal v
  | (k, v) :: fs => encString k ++ ':' :: encVal v ++ ',' :: encProps fs

end

/-- `JSON.stringify` as a string-valued function. -/
def stringify (v : JsValue) : String := String.mk (encVal v)

/-! ## JSON.parse -/

/-- Decimal digit test. -/
def isDigitCh (c : Char) : Bool := '0' ≤ c && c ≤ '9'

/-- JSON insignificant whitespace (RFC 8259: space, tab, LF, CR). -/
def jsonWs (c : Char) : Bool := c = ' ' || c = '\t' || c = '\n' || c = '\r'

/-- Skip insignificant whitespace. -/
def dropWs (cs : List Char) : List Char := cs.dropWhile jsonWs

/-- Value of one hexadecimal digit. -/
def hexNibble (c : Char) : Option Nat :=
  let n := c.toNat
  if 48 ≤ n ∧ n ≤ 57 then some (n - 48)
  else if 97 ≤ n ∧ n ≤ 102 then some (n - 97 + 10)
  else if 65 ≤ n ∧ n ≤ 70 then some (n - 65 + 10)
  else none

/-- Value of a four-digit hexadecimal escape payload. -/
def hexQuad (h1 h2 h3 h4 : Char) : Option Nat := do
  let v1 ← hexNibble h1
  let v2 ← hexNibble h2
  let v3 ← hexNibble h3
  let v4 ← hexNibble h4
  pure (((v1 * 16 + v2) * 16 + v3) * 16 + v4)

/-- The character denoted by a single-letter escape, when legal. -/
def unescapeName (c : Char) : Option Char :=
  if c = '"' then some '"'
  else if c = '\\' then some '\\'
  else if c = '/' then some '/'
  else if c = 'b' then some '\x08'
  else if c = 'f' then some '\x0c'
  else if c = 'n' then some '\x0a'
  else if c = 'r' then some '\x0d'
  else if c = 't' then some '\x09'
  else none

/-- Body of a JSON string literal, after the opening quote: collects content
characters into `acc` until the closing quote, decoding backslash escapes,
and rejects raw control characters as `JSON.parse` does.  Returns the content
and the input after the closing quote. -/
def strBody (acc : List Char) : List Char → Option (List Char × List Char)
  | [] => none
  | '\\' :: 'u' :: h1 :: h2 :: h3 :: h4 :: r =>
    match hexQuad h1 h2 h3 h4 with
    | some n => strBody (acc ++ [Char.ofNat n]) r
    | none => none
  | '\\' :: e :: r =>
    match unescapeName e with
    | some u => strBody (acc ++ [u]) r
    | none => none
  | ['\\'] => none
  | c :: rest =>
    if c = '"' then some (acc, rest)
    else if c.toNat < 0x20 then none
    else strBody (acc ++ [c]) rest

/-- Optional leading minus sign of a number lexeme. -/
def splitSign : List Char → List Char × List Char
  | [] => ([], [])
  | c :: rest => if c = '-' then (['-'], rest) else ([], c :: rest)

/-- Integer part of a number lexeme: a lone `0`, or a nonzero digit followed
by a digit run.  Fails when no digit is present (as `JSON.parse` does). -/
def scanIntPart : List Char → Option (List Char × List Char)
  | [] => none
  | c :: rest =>
    if c = '0' then some ([c], rest)
    else if isDigitCh c then
      some (c :: rest.takeWhile isDigitCh, rest.dropWhile isDigitCh)
    else none

/-- Optional fraction part: nothing, or a dot followed by at least one digit
(a dot without a digit is a syntax error). -/
def scanFracPart (cs : List Char) : Option (List Char × List Char) :=
  match cs with
  | [] => some ([], [])
  | c :: rest =>
    if c = '.' then
      match rest with
      | [] => none
      | d :: rest2 =>
        if isDigitCh d then
          some ('.' :: d :: rest2.takeWhile isDigitCh, rest2.dropWhile isDigitCh)
        else none
    else some ([], c :: rest)

/-- Optional exponent part: nothing, or `e`/`E`, an optional sign, and at
least one digit. -/
def scanExpPart (cs : List Char) : Option (List Char × List Char) :=
  match cs with
  | [] => some ([], [])
  | e :: rest =>
    if e = 'e' ∨ e = 'E' then
      match rest with
      | [] => none
      | s :: rest2 =>
        if s = '+' ∨ s = '-' then
          match rest2 with
          | [] => none
          | d :: rest3 =>
            if isDigitCh d then
              some (e :: s :: d :: rest3.takeWhile isDigitCh, rest3.dropWhile isDigitCh)
            else none
        else if isDigitCh s then
          some (e :: s :: rest2.takeWhile isDigitCh, rest2.dropWhile isDigitCh)
        else none
    else some ([], e :: rest)

/-- Maximal-munch scan of a JSON number lexeme (sign, integer, fraction,
exponent); returns the lexeme and the unconsumed input. -/
def scanNumber (cs : List Char) : Option (List Char × List Char) :=
  let (sg, cs1) := splitSign cs
  match scanIntPart cs1 with
  | none => none
  | some (ip, cs2) =>
    match scanFracPart cs2 with
    | none => none
    | some (fp, cs3) =>
      match scanExpPart cs3 with
      | none => none
      | some (ep, cs4) => some (sg ++ ip ++ fp ++ ep, cs4)

/-- A string that is exactly one well-formed JSON number lexeme — the shape
`JSON.stringify` prints for any finite number. -/
def IsNumLit (s : String) : Prop := scanNumber s.data = some (s.data, [])

instance (s : String) : Decidable (IsNumLit s) := by
  unfold IsNumLit; infer_instance

mutual

/-- One JSON value, by recursive descent (fuel-indexed so the function is
total; `jsonParseChars` supplies ample fuel).  Mirrors `JSON.parse`:
leading whitespace is skipped, then the head character dispatches. -/
def pVal : Nat → List Char → Option (JsValue × List Char)
  | 0, _ => none
  | fuel + 1, input =>
    match dropWs input with
    | [] => none
    | c :: r =>
      if c = 'n' then
        match r with
        | 'u' :: 'l' :: 'l' :: r2 => some (.null, r2)
        | _ => none
      else if c = 't' then
        match r with
        | 'r' :: 'u' :: 'e' :: r2 => some (.bool true, r2)
        | _ => none
      else if c = 'f' then
        match r with
        | 'a' :: 'l' :: 's' :: 'e' :: r2 => some (.bool false, r2)
        | _ => none
      else if c = '"' then
        match strBody [] r with
        | some (cs, r2) => some (.str (String.mk cs), r2)
        | none => none
      else if c = '[' then
        match dropWs r with
        | [] => none
        | d :: r1 =>
          if d = ']' then some (.arr [], r1)
          else
            match pItems fuel (d :: r1) with
            | some (items, r2) => some (.arr items, r2)
            | none => none
      else if c = '{' then
        match dropWs r with
        | [] => none
        | d :: r1 =>
          if d = '}' then some (.obj [], r1)
          else
            match pProps fuel (d :: r1) with
            | some (fields, r2) => some (.obj fields, r2)
            | none => none
      else if c = '-' ∨ isDigitCh c then
        match scanNumber (c :: r) with
        | some (lex, r2) => some (.num (String.mk lex), r2)
        | none => none
      else none

/-- One or more comma-separated array elements up to the closing bracket. -/
def pItems : Nat → List Char → Option (List JsValue × List Char)
  | 0, _ => none
  | fuel + 1, input =>
    match pVal fuel input with
    | none => none
    | some (v, r) =>
      match dropWs r with
      | [] => none
      | d :: r2 =>
        if d = ',' then
          match pItems fuel r2 with
          | some (vs, r3) => some (v :: vs, r3)
          | none => none
        else if d = ']' then some ([v], r2)
        else none

/-- One or more comma-separated `"key":value` properties up to the closing
brace. -/
def pProps : Nat → List Char → Option (List (String × JsValue) × List Char)
  | 0, _ => none
  | fuel + 1, input =>
    match dropWs input with
    | [] => none
    | q :: r =>
      if q = '"' then
        match strBody [] r with
        | none => none
        | some (kcs, r1) =>
          match dropWs r1 with
          | [] => none
          | d :: r2 =>
            if d = ':' then
              match pVal fuel r2 with
              | none => none
              | some (v, r3) =>
                match dropWs r3 with
                | [] => none
                | e :: r4 =>
                  if e = ',' then
                    match pProps fuel r4 with
                    | some (fs, r5) => some ((String.mk kcs, v) :: fs, r5)
                    | none => none
                  else if e = '}' then some ([(String.mk kcs, v)], r4)
                  else none
            else none
      else none

end

/-- `JSON.parse` on a character sequence: parse one value and insist nothing
but whitespace follows. -/
def jsonParseChars (cs : List Char) : Option JsValue :=
  match pVal (2 * cs.length + 2) cs with
  | some (v, r) => if dropWs r = [] then some v else none
  | none => none

/-- `JSON.parse`. -/
def jsonParse (s : String) : Option JsValue := jsonParseChars s.data

/-! ## Codec round-trip: digit runs and the number scanner -/

/-- Input that cannot extend a complete number lexeme on the left: empty, or
headed by something that is no digit and none of `.`, `e`, `E`.  The
characters that can follow a value in `JSON.stringify` output all qualify. -/
def numBoundary : List Char → Bool
  | [] => true
  | c :: _ => !(isDigitCh c || c == '.' || c == 'e' || c == 'E')

theorem dropWhile_self_of_takeWhile_nil (p : Char → Bool) (b : List Char)
    (h : b.takeWhile p = []) : b.dropWhile p = b := by
  cases b with
  | nil => rfl
  | cons c t =>
    rw [List.takeWhile_cons] at h
    rw [List.dropWhile_cons]
    by_cases hc : p c = true
    · simp [hc] at h
    · simp [hc]

/-- A `takeWhile`/`dropWhile` split is stable under appending input that the
run cannot reach (the run either stops inside `xs`, or `b` starts cold). -/
theorem span_append (p : Char → Bool) (xs b : List Char)
    (hb : xs.dropWhile p = [] → b.takeWhile p = []) :
    (xs ++ b).takeWhile p = xs.takeWhile p ∧
      (xs ++ b).dropWhile p = xs.dropWhile p ++ b := by
  induction xs with
  | nil =>
    have ht := hb rfl
    simpa [ht] using dropWhile_self_of_takeWhile_nil p b ht
  | cons c t ih =>
    by_cases hc : p c = true
    · have hrec := ih (fun h => hb (by simp [List.dropWhile_cons, hc, h]))
      refine ⟨?_, ?_⟩ <;>
        simp [List.takeWhile_cons, List.dropWhile_cons, hc, hrec.1, hrec.2]
    · refine ⟨?_, ?_⟩ <;> simp [List.takeWhile_cons, List.dropWhile_cons, hc]

theorem numBoundary_no_digit {b : List Char} (h : numBoundary b = true) :
    b.takeWhile isDigitCh = [] := by
  cases b with
  | nil => rfl
  | cons c t =>
    simp only [numBoundary, Bool.not_eq_true', Bool.or_eq_false_iff] at h
    rw [List.takeWhile_cons, if_neg (by simp [h.1.1.1])]

theorem numBoundary_head {c : Char} {t : List Char}
    (h : numBoundary (c :: t) = true) :
    isDigitCh c = false ∧ c ≠ '.' ∧ c ≠ 'e' ∧ c ≠ 'E' := by
  simp only [numBoundary, Bool.not_eq_true', Bool.or_eq_false_iff,
    beq_eq_false_iff_ne] at h
  exact ⟨h.1.1.1, h.1.1.2, h.1.2, h.2⟩

theorem scanIntPart_ext {cs b a r : List Char} (h : scanIntPart cs = some (a, r))
    (hb : r = [] → numBoundary b = true) :
    scanIntPart (cs ++ b) = some (a, r ++ b) := by
  cases cs with
  | nil => simp [scanIntPart] at h
  | cons c rest =>
    rw [List.cons_append]
    by_cases h0 : c = '0'
    · simp only [scanIntPart, if_pos h0] at h ⊢
      obtain ⟨rfl, rfl⟩ := by simpa using h
      rfl
    · by_cases hd : isDigitCh c = true
      · simp only [scanIntPart, if_neg h0, if_pos hd] at h ⊢
        obtain ⟨rfl, rfl⟩ := by simpa using h
        have hspan := span_append isDigitCh rest b
          (fun hnil => numBoundary_no_digit (hb hnil))
        simp [hspan.1, hspan.2]
      · simp [scanIntPart, if_neg h0, hd] at h

theorem scanFracPart_ext {cs b a r : List Char} (h : scanFracPart cs = some (a, r))
    (hb : r = [] → numBoundary b = true) :
    scanFracPart (cs ++ b) = some (a, r ++ b) := by
  cases cs with
  | nil =>
    simp only [scanFracPart] at h
    obtain ⟨rfl, rfl⟩ := by simpa using h
    have hB := hb rfl
    cases b with
    | nil => rfl
    | cons c t =>
      obtain ⟨_, hdot, _, _⟩ := numBoundary_head hB
      simp [scanFracPart, hdot]
  | cons c rest =>
    rw [List.cons_append]
    by_cases hdot : c = '.'
    · simp only [scanFracPart, if_pos hdot] at h ⊢
      cases rest with
      | nil => simp at h
      | cons d rest2 =>
        rw [List.cons_append]
        by_cases hd : isDigitCh d = true
        · simp only [if_pos hd] at h ⊢
          obtain ⟨rfl, rfl⟩ := by simpa using h
          have hspan := span_append isDigitCh rest2 b
            (fun hnil => numBoundary_no_digit (hb hnil))
          simp [hspan.1, hspan.2]
        · simp [hd] at h
    · simp only [scanFracPart, if_neg hdot] at h ⊢
      obtain ⟨rfl, rfl⟩ := by simpa using h
      rfl

theorem scanExpPart_ext {cs b a r : List Char} (h : scanExpPart cs = some (a, r))
    (hb : r = [] → numBoundary b = true) :
    scanExpPart (cs ++ b) = some (a, r ++ b) := by
  cases cs with
  | nil =>
    simp only [scanExpPart] at h
    obtain ⟨rfl, rfl⟩ := by simpa using h
    have hB := hb rfl
    cases b with
    | nil => rfl
    | cons c t =>
      obtain ⟨_, _, he, hE⟩ := numBoundary_head hB
      simp [scanExpPart, he, hE]
  | cons e rest =>
    rw [List.cons_append]
    by_cases hee : e = 'e' ∨ e = 'E'
    · simp only [scanExpPart, if_pos hee] at h ⊢
      cases rest with
      | nil => simp at h
      | cons s rest2 =>
        rw [List.cons_append]
        by_cases hs : s = '+' ∨ s = '-'
        · simp only [if_pos hs] at h ⊢
          cases rest2 with
          | nil => simp at h
          | cons d rest3 =>
            rw [List.cons_append]
            by_cases hd : isDigitCh d = true
            · simp only [if_pos hd] at h ⊢
              obtain ⟨rfl, rfl⟩ := by simpa using h
              have hspan := span_append isDigitCh rest3 b
                (fun hnil => numBoundary_no_digit (hb hnil))
              simp [hspan.1, hspan.2]
            · simp [hd] at h
        · by_cases hsd : isDigitCh s = true
          · simp only [if_neg hs, if_pos hsd] at h ⊢
            obtain ⟨rfl, rfl⟩ := by simpa using h
            have hspan := span_append isDigitCh rest2 b
              (fun hnil => numBoundary_no_digit (hb hnil))
            simp [hspan.1, hspan.2]
          · simp [if_neg hs, hsd] at h
    · simp only [scanExpPart, if_neg hee] at h ⊢
      obtain ⟨rfl, rfl⟩ := by simpa using h
      rfl

theorem scanNumber_ext {cs b lex r : List Char}
    (h : scanNumber cs = some (lex, r)) (hb : r = [] → numBoundary b = true) :
    scanNumber (cs ++ b) = some (lex, r ++ b) := by
  cases cs with
  | nil => simp [scanNumber, splitSign, scanIntPart] at h
  | cons c rest =>
    rw [List.cons_append]
    by_cases hm : c = '-'
    · simp only [scanNumber, splitSign, if_pos hm] at h ⊢
      cases hi : scanIntPart rest with
      | none => rw [hi] at h; simp at h
      | some pi =>
        obtain ⟨ip, cs2⟩ := pi
        rw [hi] at h
        dsimp only at h
        cases hf : scanFracPart cs2 with
        | none => rw [hf] at h; simp at h
        | some pf =>
          obtain ⟨fp, cs3⟩ := pf
          rw [hf] at h
          dsimp only at h
          cases hx : scanExpPart cs3 with
          | none => rw [hx] at h; simp at h
          | some px =>
            obtain ⟨ep, cs4⟩ := px
            rw [hx] at h
            dsimp only at h
            obtain ⟨rfl, rfl⟩ := by simpa using h
            have hx' := scanExpPart_ext hx hb
            have hf' := scanFracPart_ext hf (fun hnil => by
              subst hnil
              simp only [scanExpPart] at hx
              obtain ⟨rfl, rfl⟩ := by simpa using hx
              exact hb rfl)
            have hi' := scanIntPart_ext hi (fun hnil => by
              subst hnil
              simp only [scanFracPart] at hf
              obtain ⟨rfl, rfl⟩ := by simpa using hf
              simp only [scanExpPart] at hx
              obtain ⟨rfl, rfl⟩ := by simpa using hx
              exact hb rfl)
            rw [hi']
            dsimp only
            rw [hf']
            dsimp only
            rw [hx']
            dsimp only
            simp
    · simp only [scanNumber, splitSign, if_neg hm] at h ⊢
      cases hi : scanIntPart (c :: rest) with
      | none => rw [hi] at h; simp at h
      | some pi =>
        obtain ⟨ip, cs2⟩ := pi
        rw [hi] at h
        dsimp only at h
        cases hf : scanFracPart cs2 with
        | none => rw [hf] at h; simp at h
        | some pf =>
          obtain ⟨fp, cs3⟩ := pf
          rw [hf] at h
          dsimp only at h
          cases hx : scanExpPart cs3 with
          | none => rw [hx] at h; simp at h
          | some px =>
            obtain ⟨ep, cs4⟩ := px
            rw [hx] at h
            dsimp only at h
            obtain ⟨rfl, rfl⟩ := by simpa using h
            have hx' := scanExpPart_ext hx hb
            have hf' := scanFracPart_ext hf (fun hnil => by
              subst hnil
              simp only [scanExpPart] at hx
              obtain ⟨rfl, rfl⟩ := by simpa using hx
              exact hb rfl)
            have hi' := scanIntPart_ext hi (fun hnil => by
              subst hnil
              simp only [scanFracPart] at hf
              obtain ⟨rfl, rfl⟩ := by simpa using hf
              simp only [scanExpPart] at hx
              obtain ⟨rfl, rfl⟩ := by simpa using hx
              exact hb rfl)
            have hi2 : scanIntPart (c :: (rest ++ b)) = some (ip, cs2 ++ b) := by
              simpa using hi'
            rw [hi2]
            dsimp only
            rw [hf']
            dsimp only
            rw [hx']
            dsimp only
            simp

/-- Scanning a well-formed lexeme embedded before boundary input consumes
exactly the lexeme. -/
theorem scanNumber_lit {s : String} {rest : List Char} (h : IsNumLit s)
    (hrest : numBoundary rest = true) :
    scanNumber (s.data ++ rest) = some (s.data, rest) := by
  simpa using scanNumber_ext h (fun _ => hrest)

/-! ## Codec round-trip: string escapes -/

theorem hexNibble_hexDigitFin :
    ∀ k : Fin 16, hexNibble (hexDigitChar k.val) = some k.val := by decide

theorem hexNibble_hexDigit {k : Nat} (hk : k < 16) :
    hexNibble (hexDigitChar k) = some k := hexNibble_hexDigitFin ⟨k, hk⟩

theorem strBody_esc_u (acc : List Char) (h1 h2 h3 h4 : Char) (r : List Char) :
    strBody acc ('\\' :: 'u' :: h1 :: h2 :: h3 :: h4 :: r)
      = match hexQuad h1 h2 h3 h4 with
        | some n => strBody (acc ++ [Char.ofNat n]) r
        | none => none := rfl

theorem strBody_esc_quote (acc r : List Char) :
    strBody acc ('\\' :: '"' :: r) = strBody (acc ++ ['"']) r := rfl

theorem strBody_esc_back (acc r : List Char) :
    strBody acc ('\\' :: '\\' :: r) = strBody (acc ++ ['\\']) r := rfl

theorem strBody_esc_b (acc r : List Char) :
    strBody acc ('\\' :: 'b' :: r) = strBody (acc ++ ['\x08']) r := rfl

theorem strBody_esc_t (acc r : List Char) :
    strBody acc ('\\' :: 't' :: r) = strBody (acc ++ ['\x09']) r := rfl

theorem strBody_esc_n (acc r : List Char) :
    strBody acc ('\\' :: 'n' :: r) = strBody (acc ++ ['\x0a']) r := rfl

theorem strBody_esc_f (acc r : List Char) :
    strBody acc ('\\' :: 'f' :: r) = strBody (acc ++ ['\x0c']) r := rfl

theorem strBody_esc_r (acc r : List Char) :
    strBody acc ('\\' :: 'r' :: r) = strBody (acc ++ ['\x0d']) r := rfl

/-- Unfolding of `strBody` at a head character that is not a backslash. -/
theorem strBody_cons_plain {c : Char} (hc : c ≠ '\\') (acc rest : List Char) :
    strBody acc (c :: rest)
      = if c = '"' then some (acc, rest)
        else if c.toNat < 0x20 then none
        else strBody (acc ++ [c]) rest := by
  rw [strBody.eq_def]
  split
  · rename_i heq; exact absurd heq (by simp)
  · rename_i heq; rw [List.cons.injEq] at heq; exact absurd heq.1 hc
  · rename_i heq; rw [List.cons.injEq] at heq; exact absurd heq.1 hc
  · rename_i heq; rw [List.cons.injEq] at heq; exact absurd heq.1 hc
  · rename_i heq
    obtain ⟨rfl, rfl⟩ := List.cons.inj heq
    rfl

/-- Reading one escaped character undoes `escapeRune`. -/
theorem strBody_escape (c : Char) (acc rest : List Char) :
    strBody acc (escapeRune c ++ rest) = strBody (acc ++ [c]) rest := by
  by_cases h1 : c = '"'
  · subst h1; simp [escapeRune, strBody_esc_quote]
  · by_cases h2 : c = '\\'
    · subst h2; simp [escapeRune, strBody_esc_back]
    · by_cases h3 : c = '\x08'
      · subst h3; simp [escapeRune, strBody_esc_b]
      · by_cases h4 : c = '\x09'
        · subst h4; simp [escapeRune, strBody_esc_t]
        · by_cases h5 : c = '\x0a'
          · subst h5; simp [escapeRune, strBody_esc_n]
          · by_cases h6 : c = '\x0c'
            · subst h6; simp [escapeRune, strBody_esc_f]
            · by_cases h7 : c = '\x0d'
              · subst h7; simp [escapeRune, strBody_esc_r]
              · by_cases h8 : c.toNat < 0x20
                · rw [escapeRune, if_neg h1, if_neg h2, if_neg h3, if_neg h4,
                    if_neg h5, if_neg h6, if_neg h7, if_pos h8]
                  have hdiv : c.toNat / 16 < 16 := by omega
                  have hmod : c.toNat % 16 < 16 := by omega
                  have hq : hexQuad '0' '0' (hexDigitChar (c.toNat / 16))
                      (hexDigitChar (c.toNat % 16)) = some c.toNat := by
                    simp [hexQuad, hexNibble_hexDigit hdiv, hexNibble_hexDigit hmod,
                      show hexNibble '0' = some 0 from rfl]
                    omega
                  rw [List.cons_append, List.cons_append, List.cons_append,
                    List.cons_append, List.cons_append, List.cons_append,
                    List.nil_append, strBody_esc_u, hq]
                  dsimp only
                  rw [Char.ofNat_toNat]
                · rw [escapeRune, if_neg h1, if_neg h2, if_neg h3, if_neg h4,
                    if_neg h5, if_neg h6, if_neg h7, if_neg h8]
                  rw [List.cons_append, List.nil_append, strBody_cons_plain h2]
                  simp [h1, h8]

/-- Reading an escaped body stops exactly at the closing quote and recovers
the original characters. -/
theorem strBody_escList (cs : List Char) : ∀ (acc rest : List Char),
    strBody acc (escList cs ++ '"' :: rest) = some (acc ++ cs, rest) := by
  induction cs with
  | nil => intro acc rest; simp [escList, strBody]
  | cons c cs ih =>
    intro acc rest
    rw [escList, List.append_assoc, strBody_escape, ih]
    simp

/-! ## Codec round-trip: well-formed values -/

mutual

/-- Every number lexeme inside the value is a well-formed JSON number — true
of anything `JSON.stringify` can have produced. -/
def numsOk : JsValue → Bool
  | .null => true
  | .bool _ => true
  | .str _ => true
  | .num lit => decide (IsNumLit lit)
  | .arr items => itemsOk items
  | .obj fields => propsOk fields

/-- All array elements well-formed. -/
def itemsOk : List JsValue → Bool
  | [] => true
  | v :: vs => numsOk v && itemsOk vs

/-- All object property values well-formed. -/
def propsOk : List (String × JsValue) → Bool
  | [] => true
  | (_, v) :: fs => numsOk v && propsOk fs

end

theorem numLit_head {s : String} (h : IsNumLit s) :
    ∃ c t, s.data = c :: t ∧ (c = '-' ∨ isDigitCh c = true) := by
  unfold IsNumLit at h
  cases hd : s.data with
  | nil => rw [hd] at h; simp [scanNumber, splitSign, scanIntPart] at h
  | cons c t =>
    rw [hd] at h
    refine ⟨c, t, rfl, ?_⟩
    by_cases hm : c = '-'
    · exact Or.inl hm
    · right
      simp only [scanNumber, splitSign, if_neg hm] at h
      by_cases h0 : c = '0'
      · subst h0; decide
      · by_cases hdg : isDigitCh c = true
        · exact hdg
        · simp [scanIntPart, if_neg h0, hdg] at h

theorem digit_facts {c : Char} (h : isDigitCh c = true) :
    c ≠ 'n' ∧ c ≠ 't' ∧ c ≠ 'f' ∧ c ≠ '"' ∧ c ≠ '[' ∧ c ≠ '{' ∧ c ≠ ']' ∧
      c ≠ '}' ∧ c ≠ ',' := by
  refine ⟨?_, ?_, ?_, ?_, ?_, ?_, ?_, ?_, ?_⟩ <;>
    (intro hc; subst hc; exact absurd h (by decide))

theorem digit_not_ws {c : Char} (h : isDigitCh c = true) : jsonWs c = false := by
  have w1 : c ≠ ' ' := by intro hc; subst hc; exact absurd h (by decide)
  have w2 : c ≠ '\t' := by intro hc; subst hc; exact absurd h (by decide)
  have w3 : c ≠ '\n' := by intro hc; subst hc; exact absurd h (by decide)
  have w4 : c ≠ '\r' := by intro hc; subst hc; exact absurd h (by decide)
  simp [jsonWs, w1, w2, w3, w4]

theorem dropWs_cons {c : Char} (h : jsonWs c = false) (t : List Char) :
    dropWs (c :: t) = c :: t := by
  simp [dropWs, List.dropWhile_cons, h]

/-- The first character `JSON.stringify` emits for a value: never whitespace
and never a closing bracket, so the parser's dispatch sees it unskipped. -/
theorem encVal_head (v : JsValue) (hwf : numsOk v = true) :
    ∃ c t, encVal v = c :: t ∧ jsonWs c = false ∧ c ≠ ']' := by
  cases v with
  | null => exact ⟨'n', _, rfl, by decide, by decide⟩
  | bool b =>
    cases b with
    | false => exact ⟨'f', _, rfl, by decide, by decide⟩
    | true => exact ⟨'t', _, rfl, by decide, by decide⟩
  | num lit =>
    have hn : IsNumLit lit := by simpa [numsOk] using hwf
    obtain ⟨c, t, hdata, hc⟩ := numLit_head hn
    refine ⟨c, t, by simp [encVal, hdata], ?_, ?_⟩
    · rcases hc with rfl | hdg
      · decide
      · exact digit_not_ws hdg
    · rcases hc with rfl | hdg
      · decide
      · exact (digit_facts hdg).2.2.2.2.2.2.1
  | str s => exact ⟨'"', _, rfl, by decide, by decide⟩
  | arr items => exact ⟨'[', _, rfl, by decide, by decide⟩
  | obj fields => exact ⟨'{', _, rfl, by decide, by decide⟩

theorem encVal_length_pos (v : JsValue) (hwf : numsOk v = true) :
    0 < (encVal v).length := by
  obtain ⟨c, t, hh, _, _⟩ := encVal_head v hwf
  simp [hh]

theorem mkData (s : String) : String.mk s.data = s := rfl

theorem encItems_cons (e : JsValue) (es : List JsValue) :
    encItems (e :: es)
      = encVal e ++ (if es.isEmpty then [] else ',' :: encItems es) := by
  cases es <;> simp [encItems]

theorem encString_length (k : String) :
    (encString k).length = (escList k.data).length + 2 := by
  simp [encString]

theorem encProps_head (k : String) (v : JsValue) (fs : List (String × JsValue)) :
    ∃ t2, encProps ((k, v) :: fs) = '"' :: t2 := by
  cases fs with
  | nil =>
    refine ⟨escList k.data ++ '"' :: ':' :: encVal v, ?_⟩
    rw [show encProps [(k, v)] = encString k ++ ':' :: encVal v from rfl]
    simp [encString]
  | cons p fs2 =>
    obtain ⟨k2, v2⟩ := p
    refine ⟨escList k.data
        ++ '"' :: ':' :: (encVal v ++ ',' :: encProps ((k2, v2) :: fs2)), ?_⟩
    rw [show encProps ((k, v) :: (k2, v2) :: fs2)
          = encString k ++ ':' :: encVal v
              ++ ',' :: encProps ((k2, v2) :: fs2) from rfl]
    simp [encString]

/-! ## Codec round-trip: the main induction -/

mutual

/-- Parsing the stringification of a well-formed value before boundary input
recovers exactly the value. -/
theorem pVal_enc : ∀ (v : JsValue) (fuel : Nat) (rest : List Char),
    numsOk v = true → (encVal v).length < fuel → numBoundary rest = true →
    pVal fuel (encVal v ++ rest) = some (v, rest)
  | .null, fuel, rest, _, hf, _ => by
    cases fuel with
    | zero => simp [encVal] at hf
    | succ f =>
      rw [show encVal .null ++ rest = 'n' :: 'u' :: 'l' :: 'l' :: rest from rfl,
        pVal, dropWs_cons (by decide)]
      simp
  | .bool true, fuel, rest, _, hf, _ => by
    cases fuel with
    | zero => simp [encVal] at hf
    | succ f =>
      rw [show encVal (.bool true) ++ rest = 't' :: 'r' :: 'u' :: 'e' :: rest from rfl,
        pVal, dropWs_cons (by decide)]
      simp
  | .bool false, fuel, rest, _, hf, _ => by
    cases fuel with
    | zero => simp [encVal] at hf
    | succ f =>
      rw [show encVal (.bool false) ++ rest
            = 'f' :: 'a' :: 'l' :: 's' :: 'e' :: rest from rfl,
        pVal, dropWs_cons (by decide)]
      simp
  | .num lit, fuel, rest, hwf, hf, hrest => by
    cases fuel with
    | zero => exact absurd hf (by simp)
    | succ f =>
      have hn : IsNumLit lit := by simpa [numsOk] using hwf
      obtain ⟨c, t, hdata, hc⟩ := numLit_head hn
      have hscan : scanNumber (c :: (t ++ rest)) = some (c :: t, rest) := by
        have hs := scanNumber_lit hn hrest
        rw [hdata, List.cons_append] at hs
        exact hs
      have hne : c ≠ 'n' ∧ c ≠ 't' ∧ c ≠ 'f' ∧ c ≠ '"' ∧ c ≠ '[' ∧ c ≠ '{' := by
        rcases hc with rfl | hdg
        · exact ⟨by decide, by decide, by decide, by decide, by decide, by decide⟩
        · obtain ⟨a1, a2, a3, a4, a5, a6, _, _, _⟩ := digit_facts hdg
          exact ⟨a1, a2, a3, a4, a5, a6⟩
      have hws : jsonWs c = false := by
        rcases hc with rfl | hdg
        · decide
        · exact digit_not_ws hdg
      rw [show encVal (.num lit) = lit.data from rfl, hdata, List.cons_append,
        pVal, dropWs_cons hws]
      dsimp only
      rw [if_neg hne.1, if_neg hne.2.1, if_neg hne.2.2.1, if_neg hne.2.2.2.1,
        if_neg hne.2.2.2.2.1, if_neg hne.2.2.2.2.2,
        if_pos (by rcases hc with rfl | hdg; exacts [Or.inl rfl, Or.inr hdg]),
        hscan]
      dsimp only
      rw [← hdata, mkData]
  | .str s, fuel, rest, _, hf, _ => by
    cases fuel with
    | zero => exact absurd hf (by simp)
    | succ f =>
      rw [show encVal (.str s) ++ rest
            = '"' :: (escList s.data ++ ('"' :: rest)) by simp [encVal, encString],
        pVal, dropWs_cons (by decide)]
      dsimp only
      rw [if_neg (by decide), if_neg (by decide), if_neg (by decide),
        if_pos rfl, strBody_escList]
      dsimp only
      rw [List.nil_append, mkData]
  | .arr [], fuel, rest, _, hf, _ => by
    cases fuel with
    | zero => exact absurd hf (by simp)
    | succ f =>
      rw [show encVal (.arr []) ++ rest = '[' :: ']' :: rest from rfl,
        pVal, dropWs_cons (by decide)]
      dsimp only
      rw [if_neg (by decide), if_neg (by decide), if_neg (by decide),
        if_neg (by decide), if_pos rfl, dropWs_cons (by decide)]
      dsimp only
      rw [if_pos rfl]
  | .arr (e :: es), fuel, rest, hwf, hf, _ => by
    cases fuel with
    | zero => exact absurd hf (by simp)
    | succ f =>
      have hwf' : itemsOk (e :: es) = true := by simpa [numsOk] using hwf
      have hwfe : numsOk e = true := by
        have h2 := hwf'
        simp only [itemsOk, Bool.and_eq_true] at h2
        exact h2.1
      have hlen2 : (encVal (.arr (e :: es))).length
          = (encItems (e :: es)).length + 2 := by
        simp [encVal]
      have hrec := pItems_enc e es f rest hwf' (by omega)
      obtain ⟨c, t, hhead, hws, hbr⟩ := encVal_head e hwfe
      have hinput : encItems (e :: es) ++ ']' :: rest
          = c :: (t ++ ((if es.isEmpty then [] else ',' :: encItems es)
              ++ (']' :: rest))) := by
        rw [encItems_cons, hhead]; simp
      rw [show encVal (.arr (e :: es)) ++ rest
            = '[' :: (encItems (e :: es) ++ (']' :: rest)) by simp [encVal],
        pVal, dropWs_cons (by decide)]
      dsimp only
      rw [if_neg (by decide), if_neg (by decide), if_neg (by decide),
        if_neg (by decide), if_pos rfl, hinput, dropWs_cons hws]
      dsimp only
      rw [if_neg hbr, ← hinput, hrec]
  | .obj [], fuel, rest, _, hf, _ => by
    cases fuel with
    | zero => exact absurd hf (by simp)
    | succ f =>
      rw [show encVal (.obj []) ++ rest = '{' :: '}' :: rest from rfl,
        pVal, dropWs_cons (by decide)]
      dsimp only
      rw [if_neg (by decide), if_neg (by decide), if_neg (by decide),
        if_neg (by decide), if_neg (by decide), if_pos rfl,
        dropWs_cons (by decide)]
      dsimp only
      rw [if_pos rfl]
  | .obj ((k, v) :: fs), fuel, rest, hwf, hf, _ => by
    cases fuel with
    | zero => exact absurd hf (by simp)
    | succ f =>
      have hwf' : propsOk ((k, v) :: fs) = true := by simpa [numsOk] using hwf
      have hlen2 : (encVal (.obj ((k, v) :: fs))).length
          = (encProps ((k, v) :: fs)).length + 2 := by
        simp [encVal]
      have hrec := pProps_enc k v fs f rest hwf' (by omega)
      obtain ⟨t2, hhead⟩ := encProps_head k v fs
      have hinput : encProps ((k, v) :: fs) ++ '}' :: rest
          = '"' :: (t2 ++ ('}' :: rest)) := by
        rw [hhead]; simp
      rw [show encVal (.obj ((k, v) :: fs)) ++ rest
            = '{' :: (encProps ((k, v) :: fs) ++ ('}' :: rest)) by simp [encVal],
        pVal, dropWs_cons (by decide)]
      dsimp only
      rw [if_neg (by decide), if_neg (by decide), if_neg (by decide),
        if_neg (by decide), if_neg (by decide), if_pos rfl, hinput,
        dropWs_cons (by decide)]
      dsimp only
      rw [if_neg (by decide), ← hinput, hrec]
termination_by v fuel rest h1 h2 h3 => sizeOf v

/-- Parsing the stringification of a nonempty element list up to the closing
bracket recovers the elements. -/
theorem pItems_enc : ∀ (e : JsValue) (es : List JsValue) (fuel : Nat)
    (rest : List Char), itemsOk (e :: es) = true →
    (encItems (e :: es)).length + 1 < fuel →
    pItems fuel (encItems (e :: es) ++ ']' :: rest) = some (e :: es, rest)
  | e, [], fuel, rest, hwf, hf => by
    cases fuel with
    | zero => omega
    | succ f =>
      have hwfe : numsOk e = true := by simpa [itemsOk] using hwf
      have hval := pVal_enc e f (']' :: rest) hwfe
        (by rw [show encItems [e] = encVal e from rfl] at hf; omega) rfl
      rw [show encItems [e] ++ ']' :: rest = encVal e ++ ']' :: rest from rfl,
        pItems, hval]
      dsimp only
      rw [dropWs_cons (by decide)]
      dsimp only
      rw [if_neg (by decide), if_pos rfl]
  | e, x :: xs, fuel, rest, hwf, hf => by
    cases fuel with
    | zero => omega
    | succ f =>
      have hsplit : numsOk e = true ∧ itemsOk (x :: xs) = true := by
        have h2 := hwf
        rw [show itemsOk (e :: x :: xs)
              = (numsOk e && itemsOk (x :: xs)) from rfl,
          Bool.and_eq_true] at h2
        exact h2
      have hepos := encVal_length_pos e hsplit.1
      have hlen2 : (encItems (e :: x :: xs)).length
          = (encVal e).length + 1 + (encItems (x :: xs)).length := by
        rw [show encItems (e :: x :: xs)
              = encVal e ++ ',' :: encItems (x :: xs) from rfl,
          List.length_append, List.length_cons]
        omega
      have hval := pVal_enc e f (',' :: (encItems (x :: xs) ++ ']' :: rest))
        hsplit.1 (by omega) rfl
      have hrec := pItems_enc x xs f rest hsplit.2 (by omega)
      rw [show encItems (e :: x :: xs) ++ ']' :: rest
            = encVal e ++ (',' :: (encItems (x :: xs) ++ ']' :: rest)) by
          rw [show encItems (e :: x :: xs)
                = encVal e ++ ',' :: encItems (x :: xs) from rfl]
          simp,
        pItems, hval]
      dsimp only
      rw [dropWs_cons (by decide)]
      dsimp only
      rw [if_pos rfl, hrec]
termination_by e es fuel rest h1 h2 => sizeOf e + sizeOf es

/-- Parsing the stringification of a nonempty property list up to the closing
brace recovers the properties. -/
theorem pProps_enc : ∀ (k : String) (v : JsValue) (fs : List (String × JsValue))
    (fuel : Nat) (rest : List Char), propsOk ((k, v) :: fs) = true →
    (encProps ((k, v) :: fs)).length + 1 < fuel →
    pProps fuel (encProps ((k, v) :: fs) ++ '}' :: rest)
      = some ((k, v) :: fs, rest)
  | k, v, [], fuel, rest, hwf, hf => by
    cases fuel with
    | zero => omega
    | succ f =>
      have hwfv : numsOk v = true := by simpa [propsOk] using hwf
      have hlen2 : (encProps [(k, v)]).length
          = (escList k.data).length + 2 + 1 + (encVal v).length := by
        rw [show encProps [(k, v)] = encString k ++ ':' :: encVal v from rfl,
          List.length_append, List.length_cons, encString_length]
        omega
      have hval := pVal_enc v f ('}' :: rest) hwfv (by omega) rfl
      rw [show encProps [(k, v)] ++ '}' :: rest
            = '"' :: (escList k.data
                ++ ('"' :: (':' :: (encVal v ++ '}' :: rest)))) by
          rw [show encProps [(k, v)] = encString k ++ ':' :: encVal v from rfl]
          simp [encString],
        pProps, dropWs_cons (by decide)]
      dsimp only
      rw [if_pos rfl, strBody_escList]
      dsimp only
      rw [dropWs_cons (by decide)]
      dsimp only
      rw [if_pos rfl, hval]
      dsimp only
      rw [dropWs_cons (by decide)]
      dsimp only
      rw [if_neg (by decide), if_pos rfl, List.nil_append, mkData]
  | k, v, (k2, v2) :: fs2, fuel, rest, hwf, hf => by
    cases fuel with
    | zero => omega
    | succ f =>
      have hsplit : numsOk v = true ∧ propsOk ((k2, v2) :: fs2) = true := by
        have h2 := hwf
        rw [show propsOk ((k, v) :: (k2, v2) :: fs2)
              = (numsOk v && propsOk ((k2, v2) :: fs2)) from rfl,
          Bool.and_eq_true] at h2
        exact h2
      have hlen2 : (encProps ((k, v) :: (k2, v2) :: fs2)).length
          = (escList k.data).length + 2 + 1 + (encVal v).length + 1
              + (encProps ((k2, v2) :: fs2)).length := by
        rw [show encProps ((k, v) :: (k2, v2) :: fs2)
              = encString k ++ ':' :: encVal v
                  ++ ',' :: encProps ((k2, v2) :: fs2) from rfl,
          List.length_append, List.length_append, List.length_cons,
          List.length_cons, encString_length]
        omega
      have hval := pVal_enc v f
        (',' :: (encProps ((k2, v2) :: fs2) ++ '}' :: rest)) hsplit.1
        (by omega) rfl
      have hrec := pProps_enc k2 v2 fs2 f rest hsplit.2 (by omega)
      rw [show encProps ((k, v) :: (k2, v2) :: fs2) ++ '}' :: rest
            = '"' :: (escList k.data
                ++ ('"' :: (':' :: (encVal v
                    ++ (',' :: (encProps ((k2, v2) :: fs2)
                        ++ '}' :: rest)))))) by
          rw [show encProps ((k, v) :: (k2, v2) :: fs2)
                = encString k ++ ':' :: encVal v
                    ++ ',' :: encProps ((k2, v2) :: fs2) from rfl]
          simp [encString],
        pProps, dropWs_cons (by decide)]
      dsimp only
      rw [if_pos rfl, strBody_escList]
      dsimp only
      rw [dropWs_cons (by decide)]
      dsimp only
      rw [if_pos rfl, hval]
      dsimp only
      rw [dropWs_cons (by decide)]
      dsimp only
      rw [if_pos rfl, hrec]
      dsimp only
      rw [List.nil_append, mkData]
termination_by k v fs fuel rest h1 h2 => sizeOf v + sizeOf fs

end

/-- Codec round-trip at the value level: `JSON.parse` undoes `JSON.stringify`
on any value whose number lexemes are well-formed. -/
theorem jsonParse_stringify (v : JsValue) (hwf : numsOk v = true) :
    jsonParse (stringify v) = some v := by
  unfold jsonParse stringify jsonParseChars
  rw [show (String.mk (encVal v)).data = encVal v from rfl]
  have h := pVal_enc v (2 * (encVal v).length + 2) [] hwf (by omega) rfl
  rw [List.append_nil] at h
  rw [h]
  rfl

/-! ## Characters of stringify output -/

/-- A character that can occur in a number lexeme. -/
def numChar (c : Char) : Bool :=
  isDigitCh c || c = '-' || c = '+' || c = '.' || c = 'e' || c = 'E'

theorem mem_takeWhile_sat {p : Char → Bool} :
    ∀ {l : List Char} {c : Char}, c ∈ l.takeWhile p → p c = true := by
  intro l
  induction l with
  | nil => intro c h; simp at h
  | cons a t ih =>
    intro c h
    rw [List.takeWhile_cons] at h
    by_cases ha : p a = true
    · rw [if_pos ha] at h
      rcases List.mem_cons.mp h with rfl | h2
      · exact ha
      · exact ih h2
    · rw [if_neg ha] at h; simp at h

theorem scanIntPart_chars {cs a r : List Char} (h : scanIntPart cs = some (a, r)) :
    ∀ c ∈ a, numChar c = true := by
  cases cs with
  | nil => simp [scanIntPart] at h
  | cons c0 rest =>
    simp only [scanIntPart] at h
    by_cases h0 : c0 = '0'
    · rw [if_pos h0] at h
      obtain ⟨rfl, rfl⟩ := by simpa using h
      intro c hc
      rw [List.mem_singleton] at hc
      subst hc; subst h0; decide
    · by_cases hdg : isDigitCh c0 = true
      · rw [if_neg h0, if_pos hdg] at h
        obtain ⟨rfl, rfl⟩ := by simpa using h
        intro c hc
        rcases List.mem_cons.mp hc with rfl | h2
        · simp [numChar, hdg]
        · simp [numChar, mem_takeWhile_sat h2]
      · rw [if_neg h0, if_neg hdg] at h; simp at h

theorem scanFracPart_chars {cs a r : List Char} (h : scanFracPart cs = some (a, r)) :
    ∀ c ∈ a, numChar c = true := by
  cases cs with
  | nil =>
    simp only [scanFracPart] at h
    obtain ⟨rfl, rfl⟩ := by simpa using h
    intro c hc; simp at hc
  | cons c0 rest =>
    simp only [scanFracPart] at h
    by_cases hdot : c0 = '.'
    · rw [if_pos hdot] at h
      cases rest with
      | nil => simp at h
      | cons d rest2 =>
        dsimp only at h
        by_cases hd : isDigitCh d = true
        · rw [if_pos hd] at h
          obtain ⟨rfl, rfl⟩ := by simpa using h
          intro c hc
          rcases List.mem_cons.mp hc with rfl | h2
          · decide
          · rcases List.mem_cons.mp h2 with rfl | h3
            · simp [numChar, hd]
            · simp [numChar, mem_takeWhile_sat h3]
        · rw [if_neg hd] at h; simp at h
    · rw [if_neg hdot] at h
      obtain ⟨rfl, rfl⟩ := by simpa using h
      intro c hc; simp at hc

theorem scanExpPart_chars {cs a r : List Char} (h : scanExpPart cs = some (a, r)) :
    ∀ c ∈ a, numChar c = true := by
  cases cs with
  | nil =>
    simp only [scanExpPart] at h
    obtain ⟨rfl, rfl⟩ := by simpa using h
    intro c hc; simp at hc
  | cons e0 rest =>
    simp only [scanExpPart] at h
    by_cases hee : e0 = 'e' ∨ e0 = 'E'
    · rw [if_pos hee] at h
      cases rest with
      | nil => simp at h
      | cons s0 rest2 =>
        dsimp only at h
        by_cases hs : s0 = '+' ∨ s0 = '-'
        · rw [if_pos hs] at h
          cases rest2 with
          | nil => simp at h
          | cons d rest3 =>
            dsimp only at h
            by_cases hd : isDigitCh d = true
            · rw [if_pos hd] at h
              obtain ⟨rfl, rfl⟩ := by simpa using h
              intro c hc
              rcases List.mem_cons.mp hc with rfl | h2
              · rcases hee with rfl | rfl <;> decide
              · rcases List.mem_cons.mp h2 with rfl | h3
                · rcases hs with rfl | rfl <;> decide
                · rcases List.mem_cons.mp h3 with rfl | h4
                  · simp [numChar, hd]
                  · simp [numChar, mem_takeWhile_sat h4]
            · rw [if_neg hd] at h; simp at h
        · by_cases hsd : isDigitCh s0 = true
          · rw [if_neg hs, if_pos hsd] at h
            obtain ⟨rfl, rfl⟩ := by simpa using h
            intro c hc
            rcases List.mem_cons.mp hc with rfl | h2
            · rcases hee with rfl | rfl <;> decide
            · rcases List.mem_cons.mp h2 with rfl | h3
              · simp [numChar, hsd]
              · simp [numChar, mem_takeWhile_sat h3]
          · rw [if_neg hs, if_neg hsd] at h; simp at h
    · rw [if_neg hee] at h
      obtain ⟨rfl, rfl⟩ := by simpa using h
      intro c hc; simp at hc

/-- Every character of a scanned number lexeme is a number character. -/
theorem scanNumber_chars {cs lex r : List Char}
    (h : scanNumber cs = some (lex, r)) : ∀ c ∈ lex, numChar c = true := by
  cases cs with
  | nil => simp [scanNumber, splitSign, scanIntPart] at h
  | cons c0 rest =>
    by_cases hm : c0 = '-'
    · simp only [scanNumber, splitSign, if_pos hm] at h
      cases hi : scanIntPart rest with
      | none => rw [hi] at h; simp at h
      | some pi =>
        obtain ⟨ip, cs2⟩ := pi
        rw [hi] at h; dsimp only at h
        cases hf : scanFracPart cs2 with
        | none => rw [hf] at h; simp at h
        | some pf =>
          obtain ⟨fp, cs3⟩ := pf
          rw [hf] at h; dsimp only at h
          cases hx : scanExpPart cs3 with
          | none => rw [hx] at h; simp at h
          | some px =>
            obtain ⟨ep, cs4⟩ := px
            rw [hx] at h; dsimp only at h
            obtain ⟨rfl, rfl⟩ := by simpa using h
            intro c hc
            rcases List.mem_cons.mp hc with rfl | h2
            · decide
            · rcases List.mem_append.mp h2 with h3 | h4
              · exact scanIntPart_chars hi c h3
              · rcases List.mem_append.mp h4 with h5 | h6
                · exact scanFracPart_chars hf c h5
                · exact scanExpPart_chars hx c h6
    · simp only [scanNumber, splitSign, if_neg hm] at h
      cases hi : scanIntPart (c0 :: rest) with
      | none => rw [hi] at h; simp at h
      | some pi =>
        obtain ⟨ip, cs2⟩ := pi
        rw [hi] at h; dsimp only at h
        cases hf : scanFracPart cs2 with
        | none => rw [hf] at h; simp at h
        | some pf =>
          obtain ⟨fp, cs3⟩ := pf
          rw [hf] at h; dsimp only at h
          cases hx : scanExpPart cs3 with
          | none => rw [hx] at h; simp at h
          | some px =>
            obtain ⟨ep, cs4⟩ := px
            rw [hx] at h; dsimp only at h
            obtain ⟨rfl, rfl⟩ := by simpa using h
            intro c hc
            rcases List.mem_append.mp hc with h3 | h4
            · exact scanIntPart_chars hi c h3
            · rcases List.mem_append.mp h4 with h5 | h6
              · exact scanFracPart_chars hf c h5
              · exact scanExpPart_chars hx c h6

theorem isDigitCh_bounds {c : Char} (h : isDigitCh c = true) :
    48 ≤ c.toNat ∧ c.toNat ≤ 57 := by
  simp only [isDigitCh, Bool.and_eq_true, decide_eq_true_eq] at h
  obtain ⟨h1, h2⟩ := h
  rw [Char.le_def] at h1 h2
  exact ⟨h1, h2⟩

/-! ## The NDJSON framer (transport.ts, NdjsonTransport) -/

/-- The characters `String.prototype.trim` removes: ECMAScript WhiteSpace
(tab, VT, FF, space, NBSP, ZWNBSP and the Zs space separators) together with
the LineTerminators (LF, CR, LS, PS). -/
def jsTrimWs (c : Char) : Bool :=
  c.toNat = 0x09 || c.toNat = 0x0a || c.toNat = 0x0b || c.toNat = 0x0c ||
  c.toNat = 0x0d || c.toNat = 0x20 || c.toNat = 0xa0 || c.toNat = 0x1680 ||
  (0x2000 ≤ c.toNat && c.toNat ≤ 0x200a) || c.toNat = 0x2028 ||
  c.toNat = 0x2029 || c.toNat = 0x202f || c.toNat = 0x205f ||
  c.toNat = 0x3000 || c.toNat = 0xfeff

/-- `line.trim()`: strip trim-whitespace from both ends. -/
def jsTrim (cs : List Char) : List Char :=
  ((cs.dropWhile jsTrimWs).reverse.dropWhile jsTrimWs).reverse

/-- One observable output of the framer: a parsed message handed to the
`message` listener, or the `error` event raised for a segment `JSON.parse`
rejected (carrying the first 200 characters of the offending line, mirroring
`line.slice(0, 200)`).  The framer never closes the connection. -/
inductive FrameOut where
  | msg (v : JsValue)
  | invalid (excerpt : List Char)

/-- The `onData` splitting loop of `NdjsonTransport`: cut a segment at each
newline; trim it; skip it when blank; otherwise `JSON.parse` it, emitting the
parsed message or one malformed-input signal.  Characters after the last
newline remain buffered.  `acc` holds the already-walked part of the current
segment. -/
def frameLoop (acc : List Char) : List Char → List FrameOut × List Char
  | [] => ([], acc)
  | c :: rest =>
    if c = '\n' then
      let line := jsTrim acc
      let (outs, buf) := frameLoop [] rest
      if line.isEmpty then (outs, buf)
      else
        match jsonParseChars line with
        | some v => (.msg v :: outs, buf)
        | none => (.invalid (line.take 200) :: outs, buf)
    else frameLoop (acc ++ [c]) rest

/-- `NdjsonTransport.onData`: append the chunk to the buffered partial line
and process every complete segment, returning the outputs in order and the
new buffer. -/
def onData (buffer chunk : List Char) : List FrameOut × List Char :=
  frameLoop [] (buffer ++ chunk)

/-- `NdjsonTransport.send`: silently drop the write when the socket is
destroyed; otherwise write the JSON encoding followed by one newline. -/
def send (destroyed : Bool) (v : JsValue) : Option (List Char) :=
  if destroyed then none else some (encVal v ++ ['\n'])

theorem frameLoop_newline (acc rest : List Char) :
    frameLoop acc ('\n' :: rest)
      = (let line := jsTrim acc
         let (outs, buf) := frameLoop [] rest
         if line.isEmpty then (outs, buf)
         else
           match jsonParseChars line with
           | some v => (.msg v :: outs, buf)
           | none => (.invalid (line.take 200) :: outs, buf)) := by
  rw [frameLoop]
  simp

/-- Walking a newline-free prefix only grows the current segment. -/
theorem frameLoop_no_newline {l : List Char} (hl : '\n' ∉ l) :
    ∀ acc input, frameLoop acc (l ++ input) = frameLoop (acc ++ l) input := by
  induction l with
  | nil => intro acc input; simp
  | cons c t ih =>
    intro acc input
    have hc : c ≠ '\n' := fun h => hl (by simp [h])
    have ht : '\n' ∉ t := fun h => hl (by simp [h])
    rw [List.cons_append, frameLoop, if_neg hc, ih ht]
    simp

/-! ## Stringify output is frame-safe -/

theorem numChar_safe {c : Char} (h : numChar c = true) :
    jsTrimWs c = false ∧ c ≠ '\n' := by
  simp only [numChar, Bool.or_eq_true, decide_eq_true_eq] at h
  rcases h with ((((hd | rfl) | rfl) | rfl) | rfl) | rfl
  · obtain ⟨hlo, hhi⟩ := isDigitCh_bounds hd
    constructor
    · simp only [jsTrimWs, Bool.or_eq_false_iff, Bool.and_eq_false_iff,
        decide_eq_false_iff_not]
      omega
    · intro hc; subst hc; exact absurd hlo (by decide)
  all_goals exact ⟨by decide, by decide⟩

theorem digit_not_trimws {c : Char} (h : isDigitCh c = true) :
    jsTrimWs c = false :=
  (numChar_safe (by simp [numChar, h])).1

/-- The characters of a well-formed number lexeme. -/
theorem numLit_chars {s : String} (h : IsNumLit s) :
    ∀ c ∈ s.data, numChar c = true :=
  scanNumber_chars h

theorem hexDigitChar_safe :
    ∀ k : Fin 16, jsTrimWs (hexDigitChar k.val) = false
      ∧ hexDigitChar k.val ≠ '\n' := by decide

/-- No character `escapeRune` emits is a raw newline. -/
theorem escapeRune_no_newline (c : Char) : ∀ c2 ∈ escapeRune c, c2 ≠ '\n' := by
  unfold escapeRune
  by_cases h1 : c = '"'
  · simp [h1]
  · by_cases h2 : c = '\\'
    · simp [h1, h2]
    · by_cases h3 : c = '\x08'
      · simp [h1, h2, h3]
      · by_cases h4 : c = '\x09'
        · simp [h1, h2, h3, h4]
        · by_cases h5 : c = '\x0a'
          · simp [h1, h2, h3, h4, h5]
          · by_cases h6 : c = '\x0c'
            · simp [h1, h2, h3, h4, h5, h6]
            · by_cases h7 : c = '\x0d'
              · simp [h1, h2, h3, h4, h5, h6, h7]
              · by_cases h8 : c.toNat < 0x20
                · rw [if_neg h1, if_neg h2, if_neg h3, if_neg h4, if_neg h5,
                    if_neg h6, if_neg h7, if_pos h8]
                  intro c2 hc2
                  have hd1 := hexDigitChar_safe ⟨c.toNat / 16, by omega⟩
                  have hd2 := hexDigitChar_safe ⟨c.toNat % 16, by omega⟩
                  simp only at hd1 hd2
                  simp only [List.mem_cons, List.not_mem_nil, or_false] at hc2
                  rcases hc2 with rfl | rfl | rfl | rfl | rfl | rfl
                  · decide
                  · decide
                  · decide
                  · decide
                  · exact hd1.2
                  · exact hd2.2
                · rw [if_neg h1, if_neg h2, if_neg h3, if_neg h4, if_neg h5,
                    if_neg h6, if_neg h7, if_neg h8]
                  intro c2 hc2
                  rw [List.mem_singleton] at hc2
                  subst hc2
                  intro hc; subst hc; exact h8 (by decide)

theorem escList_no_newline (cs : List Char) : ∀ c2 ∈ escList cs, c2 ≠ '\n' := by
  induction cs with
  | nil => intro c2 h; simp [escList] at h
  | cons c t ih =>
    intro c2 h
    rw [escList] at h
    rcases List.mem_append.mp h with h1 | h2
    · exact escapeRune_no_newline c c2 h1
    · exact ih c2 h2

mutual

/-- `JSON.stringify` output never contains a raw newline: the framer will
deliver a sent message as one segment. -/
theorem encVal_no_newline : ∀ (v : JsValue), numsOk v = true →
    ∀ c ∈ encVal v, c ≠ '\n'
  | .null, _ => by intro c hc; fin_cases hc <;> decide
  | .bool true, _ => by intro c hc; fin_cases hc <;> decide
  | .bool false, _ => by intro c hc; fin_cases hc <;> decide
  | .num lit, hwf => by
    intro c hc
    have hn : IsNumLit lit := by simpa [numsOk] using hwf
    exact (numChar_safe (numLit_chars hn c hc)).2
  | .str s, _ => by
    intro c hc
    rw [show encVal (.str s) = '"' :: (escList s.data ++ ['"']) from rfl] at hc
    rcases List.mem_cons.mp hc with rfl | h2
    · decide
    · rcases List.mem_append.mp h2 with h3 | h4
      · exact escList_no_newline s.data c h3
      · rw [List.mem_singleton] at h4; subst h4; decide
  | .arr items, hwf => by
    intro c hc
    have hwf' : itemsOk items = true := by simpa [numsOk] using hwf
    rw [show encVal (.arr items) = '[' :: (encItems items ++ [']']) from rfl] at hc
    rcases List.mem_cons.mp hc with rfl | h2
    · decide
    · rcases List.mem_append.mp h2 with h3 | h4
      · exact encItems_no_newline items hwf' c h3
      · rw [List.mem_singleton] at h4; subst h4; decide
  | .obj fields, hwf => by
    intro c hc
    have hwf' : propsOk fields = true := by simpa [numsOk] using hwf
    rw [show encVal (.obj fields) = '{' :: (encProps fields ++ ['}']) from rfl] at hc
    rcases List.mem_cons.mp hc with rfl | h2
    · decide
    · rcases List.mem_append.mp h2 with h3 | h4
      · exact encProps_no_newline fields hwf' c h3
      · rw [List.mem_singleton] at h4; subst h4; decide

theorem encItems_no_newline : ∀ (items : List JsValue), itemsOk items = true →
    ∀ c ∈ encItems items, c ≠ '\n'
  | [], _ => by intro c hc; simp [encItems] at hc
  | [v], hwf => by
    intro c hc
    have hv : numsOk v = true := by simpa [itemsOk] using hwf
    exact encVal_no_newline v hv c hc
  | v :: v2 :: vs, hwf => by
    intro c hc
    have hsplit : numsOk v = true ∧ itemsOk (v2 :: vs) = true := by
      have h2 := hwf
      rw [show itemsOk (v :: v2 :: vs) = (numsOk v && itemsOk (v2 :: vs))
            from rfl, Bool.and_eq_true] at h2
      exact h2
    rw [show encItems (v :: v2 :: vs)
          = encVal v ++ ',' :: encItems (v2 :: vs) from rfl] at hc
    rcases List.mem_append.mp hc with h3 | h4
    · exact encVal_no_newline v hsplit.1 c h3
    · rcases List.mem_cons.mp h4 with rfl | h5
      · decide
      · exact encItems_no_newline (v2 :: vs) hsplit.2 c h5

theorem encProps_no_newline : ∀ (fields : List (String × JsValue)),
    propsOk fields = true → ∀ c ∈ encProps fields, c ≠ '\n'
  | [], _ => by intro c hc; simp [encProps] at hc
  | [(k, v)], hwf => by
    intro c hc
    have hv : numsOk v = true := by simpa [propsOk] using hwf
    rw [show encProps [(k, v)] = encString k ++ ':' :: encVal v from rfl,
      encString] at hc
    rcases List.mem_append.mp hc with h3 | h4
    · rcases List.mem_cons.mp h3 with rfl | h5
      · decide
      · rcases List.mem_append.mp h5 with h6 | h7
        · exact escList_no_newline k.data c h6
        · rw [List.mem_singleton] at h7; subst h7; decide
    · rcases List.mem_cons.mp h4 with rfl | h5
      · decide
      · exact encVal_no_newline v hv c h5
  | (k, v) :: (k2, v2) :: fs, hwf => by
    intro c hc
    have hsplit : numsOk v = true ∧ propsOk ((k2, v2) :: fs) = true := by
      have h2 := hwf
      rw [show propsOk ((k, v) :: (k2, v2) :: fs)
            = (numsOk v && propsOk ((k2, v2) :: fs)) from rfl,
        Bool.and_eq_true] at h2
      exact h2
    rw [show encProps ((k, v) :: (k2, v2) :: fs)
          = encString k ++ ':' :: encVal v ++ ',' :: encProps ((k2, v2) :: fs)
          from rfl, encString] at hc
    rcases List.mem_append.mp hc with h3 | h4
    · rcases List.mem_append.mp h3 with h5 | h6
      · rcases List.mem_cons.mp h5 with rfl | h7
        · decide
        · rcases List.mem_append.mp h7 with h8 | h9
          · exact escList_no_newline k.data c h8
          · rw [List.mem_singleton] at h9; subst h9; decide
      · rcases List.mem_cons.mp h6 with rfl | h7
        · decide
        · exact encVal_no_newline v hsplit.1 c h7
    · rcases List.mem_cons.mp h4 with rfl | h5
      · decide
      · exact encProps_no_newline ((k2, v2) :: fs) hsplit.2 c h5

end

/-- A list whose first and last characters are not trim-whitespace is left
unchanged by `trim()`. -/
theorem jsTrim_eq_self {l : List Char} {c c2 : Char} {t t2 : List Char}
    (h1 : l = c :: t) (hc : jsTrimWs c = false)
    (h2 : l.reverse = c2 :: t2) (hc2 : jsTrimWs c2 = false) :
    jsTrim l = l := by
  unfold jsTrim
  rw [h1, List.dropWhile_cons, if_neg (by simp [hc]), ← h1, h2,
    List.dropWhile_cons, if_neg (by simp [hc2]), ← h2, List.reverse_reverse]

/-- The first character of stringify output is not trim-whitespace. -/
theorem encVal_edge (v : JsValue) (hwf : numsOk v = true) :
    ∃ c t, encVal v = c :: t ∧ jsTrimWs c = false := by
  cases v with
  | null => exact ⟨'n', _, rfl, by decide⟩
  | bool b =>
    cases b with
    | false => exact ⟨'f', _, rfl, by decide⟩
    | true => exact ⟨'t', _, rfl, by decide⟩
  | num lit =>
    have hn : IsNumLit lit := by simpa [numsOk] using hwf
    obtain ⟨c, t, hdata, _⟩ := numLit_head hn
    refine ⟨c, t, by simp [encVal, hdata], ?_⟩
    exact (numChar_safe (numLit_chars hn c (by rw [hdata]; simp))).1
  | str s => exact ⟨'"', _, rfl, by decide⟩
  | arr items => exact ⟨'[', _, rfl, by decide⟩
  | obj fields => exact ⟨'{', _, rfl, by decide⟩

/-- The last character of stringify output is not trim-whitespace. -/
theorem encVal_last (v : JsValue) (hwf : numsOk v = true) :
    ∃ c2 t2, (encVal v).reverse = c2 :: t2 ∧ jsTrimWs c2 = false := by
  cases v with
  | null => exact ⟨'l', _, rfl, by decide⟩
  | bool b =>
    cases b with
    | false => exact ⟨'e', _, rfl, by decide⟩
    | true => exact ⟨'e', _, rfl, by decide⟩
  | num lit =>
    have hn : IsNumLit lit := by simpa [numsOk] using hwf
    obtain ⟨c, t, hdata, _⟩ := numLit_head hn
    cases hrev : (encVal (.num lit)).reverse with
    | nil =>
      rw [show encVal (.num lit) = lit.data from rfl, hdata] at hrev
      simp at hrev
    | cons c2 t2 =>
      refine ⟨c2, t2, rfl, ?_⟩
      have hmem : c2 ∈ encVal (.num lit) := by
        rw [← List.mem_reverse, hrev]; simp
      exact (numChar_safe (numLit_chars hn c2 hmem)).1
  | str s =>
    refine ⟨'"', (escList s.data).reverse ++ ['"'], ?_, by decide⟩
    rw [show encVal (.str s) = '"' :: (escList s.data ++ ['"']) from rfl]
    simp
  | arr items =>
    refine ⟨']', (encItems items).reverse ++ ['['], ?_, by decide⟩
    rw [show encVal (.arr items) = '[' :: (encItems items ++ [']']) from rfl]
    simp
  | obj fields =>
    refine ⟨'}', (encProps fields).reverse ++ ['{'], ?_, by decide⟩
    rw [show encVal (.obj fields) = '{' :: (encProps fields ++ ['}']) from rfl]
    simp

/-- `trim()` does not touch stringify output. -/
theorem jsTrim_encVal (v : JsValue) (hwf : numsOk v = true) :
    jsTrim (encVal v) = encVal v := by
  obtain ⟨c, t, h1, hc⟩ := encVal_edge v hwf
  obtain ⟨c2, t2, h2, hc2⟩ := encVal_last v hwf
  exact jsTrim_eq_self h1 hc h2 hc2

/-- A sent message arrives as exactly one parsed message and leaves the
buffer empty: the framer-level round-trip. -/
theorem frame_roundtrip (v : JsValue) (hwf : numsOk v = true) :
    onData [] (encVal v ++ ['\n']) = ([.msg v], []) := by
  unfold onData
  rw [List.nil_append,
    frameLoop_no_newline (fun h => encVal_no_newline v hwf '\n' h rfl) [] ['\n'],
    List.nil_append, frameLoop_newline]
  obtain ⟨c, t, h1, _⟩ := encVal_edge v hwf
  have htrim := jsTrim_encVal v hwf
  have hparse : jsonParseChars (encVal v) = some v := jsonParse_stringify v hwf
  rw [htrim]
  simp only [frameLoop]
  rw [show (encVal v).isEmpty = false by rw [h1]; rfl, hparse]
  simp

/-! ## Protocol messages (protocol.ts) -/

/-- `permissionMode` values accepted by `start_session`. -/
inductive PermissionMode where
  | defaultMode
  | acceptEdits
  | bypassPermissions
  | plan
deriving DecidableEq

def pmName : PermissionMode → String
  | .defaultMode => "default"
  | .acceptEdits => "acceptEdits"
  | .bypassPermissions => "bypassPermissions"
  | .plan => "plan"

/-- `settingSources` values accepted by `start_session`. -/
inductive SettingSource where
  | user
  | project
  | local
deriving DecidableEq

def ssName : SettingSource → String
  | .user => "user"
  | .project => "project"
  | .local => "local"

/-- A `permission_response` decision. -/
inductive Behavior where
  | allow
  | deny
deriving DecidableEq

def behaviorName : Behavior → String
  | .allow => "allow"
  | .deny => "deny"

/-- An outbound `session_status` value. -/
inductive SessionStatus where
  | started
  | idle
  | processing
  | closed
  | error
deriving DecidableEq

def statusName : SessionStatus → String
  | .started => "started"
  | .idle => "idle"
  | .processing => "processing"
  | .closed => "closed"
  | .error => "error"

/-- Inbound messages, desktop app → CLI (protocol.ts).  Every message
carries the session id used for routing. -/
inductive InboundMessage where
  | startSession (sessionId cwd prompt : String) (systemPrompt model : Option String)
      (permissionMode : Option PermissionMode) (allowedTools : Option (List String))
      (settingSources : Option (List SettingSource))
  | sendPrompt (sessionId prompt : String)
  | resumeSession (sessionId claudeSessionId prompt cwd : String)
  | permissionResponse (sessionId requestId : String) (behavior : Behavior)
      (updatedInput : Option JsObj) (message : Option String)
  | questionResponse (sessionId requestId : String)
      (answers : List (String × String))
  | interrupt (sessionId : String)
  | closeSession (sessionId : String)

/-- Outbound messages, CLI → desktop app (protocol.ts).  The opaque
passthrough fields (`toolInput`, `output`, `delta`, `suggestions`,
`questions`) are untyped `JsValue`s; number-valued fields carry their decimal
renderings. -/
inductive OutboundMessage where
  | assistantText (sessionId uuid text : String)
  | toolUse (sessionId uuid toolName : String) (toolInput : JsValue)
      (toolUseId : String)
  | toolResult (sessionId uuid toolUseId : String) (output : JsValue)
      (isError : Option Bool)
  | permissionRequest (sessionId requestId toolName : String)
      (toolInput : JsValue) (toolUseId : String) (suggestions : Option JsValue)
  | question (sessionId requestId : String) (questions : Option JsValue)
  | system (sessionId subtype claudeSessionId : String)
      (tools : Option (List String)) (model cwd : Option String)
  | result (sessionId subtype : String) (isError : Bool) (result : Option String)
      (totalCostUsd durationMs numTurns : String) (errors : Option (List String))
  | streamDelta (sessionId uuid : String) (delta : JsValue)
  | error (sessionId error : String) (code : Option String)
  | sessionStatus (sessionId : String) (status : SessionStatus)

/-- A message of either direction. -/
inductive ProtocolMessage where
  | inb (m : InboundMessage)
  | outb (m : OutboundMessage)

/-- A property that is omitted when the JS value is `undefined`. -/
def optField (k : String) : Option JsValue → JsObj
  | none => []
  | some v => [(k, v)]

def strArr (xs : List String) : JsValue := .arr (xs.map .str)

def recordOfPairs (ps : List (String × String)) : JsValue :=
  .obj (ps.map (fun p => (p.1, .str p.2)))

/-- The JS object a message is at runtime — what `JSON.stringify` receives. -/
def InboundMessage.toJson : InboundMessage → JsValue
  | .startSession sessionId cwd prompt systemPrompt model permissionMode
      allowedTools settingSources =>
      .obj ([("type", .str "start_session"), ("sessionId", .str sessionId),
          ("cwd", .str cwd), ("prompt", .str prompt)]
        ++ optField "systemPrompt" (systemPrompt.map .str)
        ++ optField "model" (model.map .str)
        ++ optField "permissionMode" (permissionMode.map (fun m => .str (pmName m)))
        ++ optField "allowedTools" (allowedTools.map strArr)
        ++ optField "settingSources"
            (settingSources.map (fun l => .arr (l.map (fun s => .str (ssName s))))))
  | .sendPrompt sessionId prompt =>
      .obj [("type", .str "send_prompt"), ("sessionId", .str sessionId),
        ("prompt", .str prompt)]
  | .resumeSession sessionId claudeSessionId prompt cwd =>
      .obj [("type", .str "resume_session"), ("sessionId", .str sessionId),
        ("claudeSessionId", .str claudeSessionId), ("prompt", .str prompt),
        ("cwd", .str cwd)]
  | .permissionResponse sessionId requestId behavior updatedInput message =>
      .obj ([("type", .str "permission_response"), ("sessionId", .str sessionId),
          ("requestId", .str requestId),
          ("behavior", .str (behaviorName behavior))]
        ++ optField "updatedInput" (updatedInput.map .obj)
        ++ optField "message" (message.map .str))
  | .questionResponse sessionId requestId answers =>
      .obj [("type", .str "question_response"), ("sessionId", .str sessionId),
        ("requestId", .str requestId), ("answers", recordOfPairs answers)]
  | .interrupt sessionId =>
      .obj [("type", .str "interrupt"), ("sessionId", .str sessionId)]
  | .closeSession sessionId =>
      .obj [("type", .str "close_session"), ("sessionId", .str sessionId)]

/-- The JS object an outbound event is at runtime. -/
def OutboundMessage.toJson : OutboundMessage → JsValue
  | .assistantText sessionId uuid text =>
      .obj [("sessionId", .str sessionId), ("type", .str "assistant_text"),
        ("uuid", .str uuid), ("text", .str text)]
  | .toolUse sessionId uuid toolName toolInput toolUseId =>
      .obj [("sessionId", .str sessionId), ("type", .str "tool_use"),
        ("uuid", .str uuid), ("toolName", .str toolName),
        ("toolInput", toolInput), ("toolUseId", .str toolUseId)]
  | .toolResult sessionId uuid toolUseId output isError =>
      .obj ([("sessionId", .str sessionId), ("type", .str "tool_result"),
          ("uuid", .str uuid), ("toolUseId", .str toolUseId),
          ("output", output)]
        ++ optField "isError" (isError.map .bool))
  | .permissionRequest sessionId requestId toolName toolInput toolUseId
      suggestions =>
      .obj ([("sessionId", .str sessionId), ("type", .str "permission_request"),
          ("requestId", .str requestId), ("toolName", .str toolName),
          ("toolInput", toolInput), ("toolUseId", .str toolUseId)]
        ++ optField "suggestions" suggestions)
  | .question sessionId requestId questions =>
      .obj ([("sessionId", .str sessionId), ("type", .str "question"),
          ("requestId", .str requestId)]
        ++ optField "questions" questions)
  | .system sessionId subtype claudeSessionId tools model cwd =>
      .obj ([("sessionId", .str sessionId), ("type", .str "system"),
          ("subtype", .str subtype),
          ("claudeSessionId", .str claudeSessionId)]
        ++ optField "tools" (tools.map strArr)
        ++ optField "model" (model.map .str)
        ++ optField "cwd" (cwd.map .str))
  | .result sessionId subtype isError res totalCostUsd durationMs numTurns
      errors =>
      .obj ([("sessionId", .str sessionId), ("type", .str "result"),
          ("subtype", .str subtype), ("isError", .bool isError)]
        ++ optField "result" (res.map .str)
        ++ [("totalCostUsd", .num totalCostUsd), ("durationMs", .num durationMs),
          ("numTurns", .num numTurns)]
        ++ optField "errors" (errors.map strArr))
  | .streamDelta sessionId uuid delta =>
      .obj [("sessionId", .str sessionId), ("type", .str "stream_delta"),
        ("uuid", .str uuid), ("delta", delta)]
  | .error sessionId err code =>
      .obj ([("sessionId", .str sessionId), ("type", .str "error"),
          ("error", .str err)]
        ++ optField "code" (code.map .str))
  | .sessionStatus sessionId status =>
      .obj [("sessionId", .str sessionId), ("type", .str "session_status"),
        ("status", .str (statusName status))]

def ProtocolMessage.toJson : ProtocolMessage → JsValue
  | .inb m => m.toJson
  | .outb m => m.toJson

/-- The bytes `NdjsonTransport.send` writes for a message. -/
def serializeMsg (m : ProtocolMessage) : List Char :=
  encVal m.toJson ++ ['\n']

/-! ## Decoding a wire object back into the typed message union

The receiving sides cast the parsed object to the protocol type; the decoder
below makes that reading explicit so the round-trip theorem can state
identity at the message level. -/

def getStr (o : JsObj) (k : String) : Option String :=
  match jsGet o k with
  | some (.str s) => some s
  | _ => none

def getBool (o : JsObj) (k : String) : Option Bool :=
  match jsGet o k with
  | some (.bool b) => some b
  | _ => none

def getNum (o : JsObj) (k : String) : Option String :=
  match jsGet o k with
  | some (.num lit) => some lit
  | _ => none

def getOptStr (o : JsObj) (k : String) : Option (Option String) :=
  match jsGet o k with
  | none => some none
  | some (.str s) => some (some s)
  | some _ => none

def getOptBool (o : JsObj) (k : String) : Option (Option Bool) :=
  match jsGet o k with
  | none => some none
  | some (.bool b) => some (some b)
  | some _ => none

def getOptVal (o : JsObj) (k : String) : Option JsValue := jsGet o k

def decodeStrs : List JsValue → Option (List String)
  | [] => some []
  | .str s :: rest => (decodeStrs rest).map (s :: ·)
  | _ => none

def getOptStrs (o : JsObj) (k : String) : Option (Option (List String)) :=
  match jsGet o k with
  | none => some none
  | some (.arr items) => (decodeStrs items).map some
  | some _ => none

def getOptObj (o : JsObj) (k : String) : Option (Option JsObj) :=
  match jsGet o k with
  | none => some none
  | some (.obj fs) => some (some fs)
  | some _ => none

def pmOfName (s : String) : Option PermissionMode :=
  if s = "default" then some .defaultMode
  else if s = "acceptEdits" then some .acceptEdits
  else if s = "bypassPermissions" then some .bypassPermissions
  else if s = "plan" then some .plan
  else none

def ssOfName (s : String) : Option SettingSource :=
  if s = "user" then some .user
  else if s = "project" then some .project
  else if s = "local" then some .local
  else none

def behaviorOfName (s : String) : Option Behavior :=
  if s = "allow" then some .allow
  else if s = "deny" then some .deny
  else none

def statusOfName (s : String) : Option SessionStatus :=
  if s = "started" then some .started
  else if s = "idle" then some .idle
  else if s = "processing" then some .processing
  else if s = "closed" then some .closed
  else if s = "error" then some .error
  else none

def getOptPm (o : JsObj) (k : String) : Option (Option PermissionMode) :=
  match jsGet o k with
  | none => some none
  | some (.str s) => (pmOfName s).map some
  | some _ => none

def decodeSources : List JsValue → Option (List SettingSource)
  | [] => some []
  | .str s :: rest =>
    match ssOfName s with
    | some src => (decodeSources rest).map (src :: ·)
    | none => none
  | _ => none

def getOptSources (o : JsObj) (k : String) :
    Option (Option (List SettingSource)) :=
  match jsGet o k with
  | none => some none
  | some (.arr items) => (decodeSources items).map some
  | some _ => none

def decodePairs : JsObj → Option (List (String × String))
  | [] => some []
  | (k, .str s) :: rest => (decodePairs rest).map ((k, s) :: ·)
  | _ => none

def getPairs (o : JsObj) (k : String) : Option (List (String × String)) :=
  match jsGet o k with
  | some (.obj fs) => decodePairs fs
  | _ => none

/-- Read a wire object back as a protocol message, keyed on its `type`
discriminant. -/
def fromJsonMsg (v : JsValue) : Option ProtocolMessage :=
  match v with
  | .obj o =>
    match getStr o "type" with
    | none => none
    | some t =>
      if t = "start_session" then do
        let sessionId ← getStr o "sessionId"
        let cwd ← getStr o "cwd"
        let prompt ← getStr o "prompt"
        let systemPrompt ← getOptStr o "systemPrompt"
        let model ← getOptStr o "model"
        let permissionMode ← getOptPm o "permissionMode"
        let allowedTools ← getOptStrs o "allowedTools"
        let settingSources ← getOptSources o "settingSources"
        pure (.inb (.startSession sessionId cwd prompt systemPrompt model
          permissionMode allowedTools settingSources))
      else if t = "send_prompt" then do
        let sessionId ← getStr o "sessionId"
        let prompt ← getStr o "prompt"
        pure (.inb (.sendPrompt sessionId prompt))
      else if t = "resume_session" then do
        let sessionId ← getStr o "sessionId"
        let claudeSessionId ← getStr o "claudeSessionId"
        let prompt ← getStr o "prompt"
        let cwd ← getStr o "cwd"
        pure (.inb (.resumeSession sessionId claudeSessionId prompt cwd))
      else if t = "permission_response" then do
        let sessionId ← getStr o "sessionId"
        let requestId ← getStr o "requestId"
        let bn ← getStr o "behavior"
        let behavior ← behaviorOfName bn
        let updatedInput ← getOptObj o "updatedInput"
        let message ← getOptStr o "message"
        pure (.inb (.permissionResponse sessionId requestId behavior
          updatedInput message))
      else if t = "question_response" then do
        let sessionId ← getStr o "sessionId"
        let requestId ← getStr o "requestId"
        let answers ← getPairs o "answers"
        pure (.inb (.questionResponse sessionId requestId answers))
      else if t = "interrupt" then do
        let sessionId ← getStr o "sessionId"
        pure (.inb (.interrupt sessionId))
      else if t = "close_session" then do
        let sessionId ← getStr o "sessionId"
        pure (.inb (.closeSession sessionId))
      else if t = "assistant_text" then do
        let sessionId ← getStr o "sessionId"
        let uuid ← getStr o "uuid"
        let text ← getStr o "text"
        pure (.outb (.assistantText sessionId uuid text))
      else if t = "tool_use" then do
        let sessionId ← getStr o "sessionId"
        let uuid ← getStr o "uuid"
        let toolName ← getStr o "toolName"
        let toolInput ← getOptVal o "toolInput"
        let toolUseId ← getStr o "toolUseId"
        pure (.outb (.toolUse sessionId uuid toolName toolInput toolUseId))
      else if t = "tool_result" then do
        let sessionId ← getStr o "sessionId"
        let uuid ← getStr o "uuid"
        let toolUseId ← getStr o "toolUseId"
        let output ← getOptVal o "output"
        let isError ← getOptBool o "isError"
        pure (.outb (.toolResult sessionId uuid toolUseId output isError))
      else if t = "permission_request" then do
        let sessionId ← getStr o "sessionId"
        let requestId ← getStr o "requestId"
        let toolName ← getStr o "toolName"
        let toolInput ← getOptVal o "toolInput"
        let toolUseId ← getStr o "toolUseId"
        let suggestions := jsGet o "suggestions"
        pure (.outb (.permissionRequest sessionId requestId toolName toolInput
          toolUseId suggestions))
      else if t = "question" then do
        let sessionId ← getStr o "sessionId"
        let requestId ← getStr o "requestId"
        let questions := jsGet o "questions"
        pure (.outb (.question sessionId requestId questions))
      else if t = "system" then do
        let sessionId ← getStr o "sessionId"
        let subtype ← getStr o "subtype"
        let claudeSessionId ← getStr o "claudeSessionId"
        let tools ← getOptStrs o "tools"
        let model ← getOptStr o "model"
        let cwd ← getOptStr o "cwd"
        pure (.outb (.system sessionId subtype claudeSessionId tools model cwd))
      else if t = "result" then do
        let sessionId ← getStr o "sessionId"
        let subtype ← getStr o "subtype"
        let isError ← getBool o "isError"
        let res ← getOptStr o "result"
        let totalCostUsd ← getNum o "totalCostUsd"
        let durationMs ← getNum o "durationMs"
        let numTurns ← getNum o "numTurns"
        let errors ← getOptStrs o "errors"
        pure (.outb (.result sessionId subtype isError res totalCostUsd
          durationMs numTurns errors))
      else if t = "stream_delta" then do
        let sessionId ← getStr o "sessionId"
        let uuid ← getStr o "uuid"
        let delta ← getOptVal o "delta"
        pure (.outb (.streamDelta sessionId uuid delta))
      else if t = "error" then do
        let sessionId ← getStr o "sessionId"
        let err ← getStr o "error"
        let code ← getOptStr o "code"
        pure (.outb (.error sessionId err code))
      else if t = "session_status" then do
        let sessionId ← getStr o "sessionId"
        let sn ← getStr o "status"
        let status ← statusOfName sn
        pure (.outb (.sessionStatus sessionId status))
      else none
  | _ => none

theorem decodeStrs_map (xs : List String) :
    decodeStrs (xs.map .str) = some xs := by
  induction xs with
  | nil => rfl
  | cons x t ih => simp [decodeStrs, ih]

theorem decodeSources_map (xs : List SettingSource) :
    decodeSources (xs.map (fun s => .str (ssName s))) = some xs := by
  induction xs with
  | nil => rfl
  | cons x t ih =>
    have hx : ssOfName (ssName x) = some x := by cases x <;> rfl
    simp [decodeSources, hx, ih]

theorem decodePairs_map (ps : List (String × String)) :
    decodePairs (ps.map (fun p => (p.1, .str p.2))) = some ps := by
  induction ps with
  | nil => rfl
  | cons p t ih =>
    obtain ⟨k, s⟩ := p
    simp [decodePairs, ih]

theorem pmOfName_pmName (m : PermissionMode) : pmOfName (pmName m) = some m := by
  cases m <;> rfl

theorem behaviorOfName_name (b : Behavior) :
    behaviorOfName (behaviorName b) = some b := by
  cases b <;> rfl

theorem statusOfName_name (s : SessionStatus) :
    statusOfName (statusName s) = some s := by
  cases s <;> rfl

set_option maxHeartbeats 3200000 in
/-- Reading a message's wire object back recovers the message: `toJson` is
split by `fromJsonMsg`, so serialisation loses nothing. -/
theorem fromJsonMsg_toJson (m : ProtocolMessage) :
    fromJsonMsg m.toJson = some m := by
  cases m with
  | inb mi =>
    cases mi with
    | startSession sessionId cwd prompt systemPrompt model permissionMode
        allowedTools settingSources =>
      cases systemPrompt <;> cases model <;> cases permissionMode <;>
        cases allowedTools <;> cases settingSources <;>
        simp [ProtocolMessage.toJson, InboundMessage.toJson, fromJsonMsg,
          optField, jsGet, getStr, getOptStr, getOptPm, getOptStrs,
          getOptSources, decodeStrs_map, decodeSources_map, pmOfName_pmName,
          strArr]
    | sendPrompt sessionId prompt =>
      simp [ProtocolMessage.toJson, InboundMessage.toJson, fromJsonMsg,
        jsGet, getStr]
    | resumeSession sessionId claudeSessionId prompt cwd =>
      simp [ProtocolMessage.toJson, InboundMessage.toJson, fromJsonMsg,
        jsGet, getStr]
    | permissionResponse sessionId requestId behavior updatedInput message =>
      cases updatedInput <;> cases message <;>
        simp [ProtocolMessage.toJson, InboundMessage.toJson, fromJsonMsg,
          optField, jsGet, getStr, getOptStr, getOptObj,
          behaviorOfName_name]
    | questionResponse sessionId requestId answers =>
      simp [ProtocolMessage.toJson, InboundMessage.toJson, fromJsonMsg,
        jsGet, getStr, getPairs, recordOfPairs, decodePairs_map]
    | interrupt sessionId =>
      simp [ProtocolMessage.toJson, InboundMessage.toJson, fromJsonMsg,
        jsGet, getStr]
    | closeSession sessionId =>
      simp [ProtocolMessage.toJson, InboundMessage.toJson, fromJsonMsg,
        jsGet, getStr]
  | outb mo =>
    cases mo with
    | assistantText sessionId uuid text =>
      simp [ProtocolMessage.toJson, OutboundMessage.toJson, fromJsonMsg,
        jsGet, getStr]
    | toolUse sessionId uuid toolName toolInput toolUseId =>
      simp [ProtocolMessage.toJson, OutboundMessage.toJson, fromJsonMsg,
        jsGet, getStr, getOptVal]
    | toolResult sessionId uuid toolUseId output isError =>
      cases isError <;>
        simp [ProtocolMessage.toJson, OutboundMessage.toJson, fromJsonMsg,
          optField, jsGet, getStr, getOptVal, getOptBool]
    | permissionRequest sessionId requestId toolName toolInput toolUseId
        suggestions =>
      cases suggestions <;>
        simp [ProtocolMessage.toJson, OutboundMessage.toJson, fromJsonMsg,
          optField, jsGet, getStr, getOptVal]
    | question sessionId requestId questions =>
      cases questions <;>
        simp [ProtocolMessage.toJson, OutboundMessage.toJson, fromJsonMsg,
          optField, jsGet, getStr, getOptVal]
    | system sessionId subtype claudeSessionId tools model cwd =>
      cases tools <;> cases model <;> cases cwd <;>
        simp [ProtocolMessage.toJson, OutboundMessage.toJson, fromJsonMsg,
          optField, jsGet, getStr, getOptStr, getOptStrs, decodeStrs_map,
          strArr]
    | result sessionId subtype isError res totalCostUsd durationMs numTurns
        errors =>
      cases res <;> cases errors <;>
        simp [ProtocolMessage.toJson, OutboundMessage.toJson, fromJsonMsg,
          optField, jsGet, getStr, getOptStr, getBool, getNum, getOptStrs,
          decodeStrs_map, strArr]
    | streamDelta sessionId uuid delta =>
      simp [ProtocolMessage.toJson, OutboundMessage.toJson, fromJsonMsg,
        jsGet, getStr, getOptVal]
    | error sessionId err code =>
      cases code <;>
        simp [ProtocolMessage.toJson, OutboundMessage.toJson, fromJsonMsg,
          optField, jsGet, getStr, getOptStr]
    | sessionStatus sessionId status =>
      simp [ProtocolMessage.toJson, OutboundMessage.toJson, fromJsonMsg,
        jsGet, getStr, statusOfName_name]

/-! ## The agent session (session.ts, AgentSession)

Asynchronous effects are reified as `Action`s in emission order.  An engine
invocation is modelled by the `EngineOutcome` the engine produces for it (the
stream of SDK messages it yields, then normal completion or a thrown
exception).  The decision callback `canUseTool` is modelled as its own
transition because the engine performs it while an invocation is suspended,
interleaved with the session's other operations. -/

/-- A parked decision point: the original tool input (the default payload for
allow-with-modified-input).  Its single-resolution continuation is identified
by the request id carried by `Action.resolve`. -/
structure PendingRequest where
  toolInput : JsObj

/-- The `PermissionResult` delivered to one engine decision point. -/
inductive PermissionResult where
  | allow (updatedInput : JsObj)
  | deny (message : String)

/-- `systemPrompt` option: a raw string or a named preset. -/
inductive SystemPromptSpec where
  | raw (s : String)
  | preset (name : String)

/-- The option bag session.ts hands to `query(...)`. -/
structure Options where
  cwd : Option String
  model : Option String
  permissionMode : Option PermissionMode
  allowedTools : Option (List String)
  settingSources : Option (List SettingSource)
  systemPrompt : Option SystemPromptSpec
  includePartialMessages : Bool
  resume : Option String

/-- One observable effect of a modelled operation, in emission order. -/
inductive Action where
  | emit (msg : OutboundMessage)
  | resolve (requestId : String) (result : PermissionResult)
  | invoke (prompt : String) (options : Options)
  | interruptQuery
  | closeQuery
  | logError (line : String)

/-- The state of one `AgentSession`. -/
structure AgentSession where
  sessionId : String
  activeQuery : Bool
  claudeSessionId : Option String
  pendingRequests : List (String × PendingRequest)
  requestCounter : Nat
  lastCwd : String

/-- The constructor: `lastCwd` starts as the process working directory. -/
def AgentSession.init (sessionId processCwd : String) : AgentSession :=
  { sessionId := sessionId, activeQuery := false, claudeSessionId := none,
    pendingRequests := [], requestCounter := 0, lastCwd := processCwd }

/-- A `start_session` configuration (the fields session.ts reads). -/
structure StartSessionMsg where
  sessionId : String
  cwd : String
  prompt : String
  systemPrompt : Option String
  model : Option String
  permissionMode : Option PermissionMode
  allowedTools : Option (List String)
  settingSources : Option (List SettingSource)

/-- A content block of an SDK assistant message, in the shapes
`handleAssistantMessage` distinguishes. -/
inductive ContentBlock where
  | text (text : String)
  | toolUse (id name : String) (input : Option JsValue)
  | toolResult (toolUseId : String) (content : Option JsValue)
      (isError : Option Bool)
  | other

/-- A message from the engine's event stream, in the shapes `forwardMessage`
distinguishes (`assistant` carries `none` when `message.content` is not an
array). -/
inductive SDKMessage where
  | system (subtype sessionId : String) (tools : List String) (model cwd : String)
  | assistant (uuid : String) (content : Option (List ContentBlock))
  | result (subtype : String) (isError : Bool) (result : Option String)
      (totalCostUsd durationMs numTurns : String) (errors : Option (List String))
  | streamEvent (uuid : String) (event : JsValue)
  | user
  | other

/-- What one engine invocation does: the SDK messages it yields in order,
then either normal completion (`err = none`) or a thrown exception whose
rendered message is `err`. -/
structure EngineOutcome where
  msgs : List SDKMessage
  err : Option String

/-- Events produced for one content block (`handleAssistantMessage`'s loop
body): tool_use and tool_result blocks are forwarded immediately, text blocks
are collected separately. -/
def blockActions (sessionId uuid : String) : ContentBlock → List Action
  | .toolUse id name input =>
    [.emit (.toolUse sessionId uuid name (input.getD (.obj [])) id)]
  | .toolResult tuid content isErr =>
    [.emit (.toolResult sessionId uuid tuid (content.getD .null)
      (some (isErr.getD false)))]
  | _ => []

def blocksActions (sessionId uuid : String) : List ContentBlock → List Action
  | [] => []
  | b :: rest => blockActions sessionId uuid b ++ blocksActions sessionId uuid rest

/-- The collected text parts of the content blocks. -/
def textParts : List ContentBlock → List String
  | [] => []
  | .text t :: rest => t :: textParts rest
  | _ :: rest => textParts rest

/-- `handleAssistantMessage`: nothing when the content is not an array;
otherwise the block events followed by one `assistant_text` event when any
text was collected. -/
def assistantActions (sessionId uuid : String) :
    Option (List ContentBlock) → List Action
  | none => []
  | some blocks =>
    blocksActions sessionId uuid blocks
      ++ (if textParts blocks = [] then []
          else [.emit (.assistantText sessionId uuid
            (String.join (textParts blocks)))])

/-- `forwardMessage`: convert one SDK message to protocol events; a system
message also captures the conversation id for later resume. -/
def forwardMessage (s : AgentSession) : SDKMessage → AgentSession × List Action
  | .system subtype sid tools model cwd =>
    ({ s with claudeSessionId := some sid },
     [.emit (.system s.sessionId subtype sid (some tools) (some model)
       (some cwd))])
  | .assistant uuid content => (s, assistantActions s.sessionId uuid content)
  | .result subtype isError res c d n errs =>
    (s, [.emit (.result s.sessionId subtype isError res c d n errs)])
  | .streamEvent uuid ev => (s, [.emit (.streamDelta s.sessionId uuid ev)])
  | .user => (s, [])
  | .other => (s, [])

def forwardAll (s : AgentSession) : List SDKMessage → AgentSession × List Action
  | [] => (s, [])
  | m :: rest =>
    let (s1, acts) := forwardMessage s m
    let (s2, acts2) := forwardAll s1 rest
    (s2, acts ++ acts2)

/-- `runQuery`: emit `processing`, start the invocation, relay every yielded
message, convert an exception into an `error` event, and in the `finally`
clear the active query and emit `idle`. -/
def runQuery (s : AgentSession) (prompt : String) (options : Options)
    (outcome : EngineOutcome) : AgentSession × List Action :=
  let (s1, evs) := forwardAll { s with activeQuery := true } outcome.msgs
  let errEvs : List Action :=
    match outcome.err with
    | some e => [.emit (.error s.sessionId e none)]
    | none => []
  ({ s1 with activeQuery := false },
   .emit (.sessionStatus s.sessionId .processing)
     :: .invoke prompt options
     :: (evs ++ errEvs ++ [.emit (.sessionStatus s.sessionId .idle)]))

/-- The engine options `start` builds from a `start_session` message:
`settingSources` defaults to `["project"]` and the system prompt to the
`claude_code` preset. -/
def startOptions (config : StartSessionMsg) : Options :=
  { cwd := some config.cwd
    model := config.model
    permissionMode := config.permissionMode
    allowedTools := config.allowedTools
    settingSources := some (config.settingSources.getD [.project])
    systemPrompt := some (match config.systemPrompt with
      | some sp => .raw sp
      | none => .preset "claude_code")
    includePartialMessages := true
    resume := none }

/-- The engine options `sendPrompt` and `resume` build: everything default
except the working directory and the conversation id being resumed. -/
def resumeOptions (cwd cid : String) : Options :=
  { cwd := some cwd, model := none, permissionMode := none,
    allowedTools := none, settingSources := none, systemPrompt := none,
    includePartialMessages := true, resume := some cid }

/-- `AgentSession.start`. -/
def AgentSession.start (s : AgentSession) (config : StartSessionMsg)
    (outcome : EngineOutcome) : AgentSession × List Action :=
  let s1 := { s with lastCwd := config.cwd }
  let (s2, acts) := runQuery s1 config.prompt (startOptions config) outcome
  (s2, .emit (.sessionStatus s.sessionId .started) :: acts)

/-- `AgentSession.sendPrompt`: without a captured conversation id, emit
`error` and do nothing else; otherwise resume that conversation. -/
def AgentSession.sendPrompt (s : AgentSession) (prompt : String)
    (outcome : EngineOutcome) : AgentSession × List Action :=
  match s.claudeSessionId with
  | none =>
    (s, [.emit (.error s.sessionId "No active session to send prompt to" none)])
  | some cid => runQuery s prompt (resumeOptions s.lastCwd cid) outcome

/-- `AgentSession.resume`. -/
def AgentSession.resume (s : AgentSession)
    (claudeSessionId prompt cwd : String) (outcome : EngineOutcome) :
    AgentSession × List Action :=
  let s1 := { s with lastCwd := cwd }
  runQuery s1 prompt (resumeOptions cwd claudeSessionId) outcome

/-- `AgentSession.interrupt`: signal the active invocation, if any. -/
def AgentSession.interrupt (s : AgentSession) : AgentSession × List Action :=
  if s.activeQuery then (s, [.interruptQuery]) else (s, [])

/-- `AgentSession.close`: close any active invocation, deny every pending
request with "Session closed", clear the table, then emit `closed`. -/
def AgentSession.close (s : AgentSession) : AgentSession × List Action :=
  ({ s with activeQuery := false, pendingRequests := [] },
   (if s.activeQuery then [Action.closeQuery] else [])
     ++ s.pendingRequests.map (fun p => .resolve p.1 (.deny "Session closed"))
     ++ [.emit (.sessionStatus s.sessionId .closed)])

/-- `AgentSession.resolvePermission`: an absent id is a no-op; otherwise the
entry is removed and the continuation resolved — `allow` with the updated or
original input, `deny` with the given or default reason. -/
def AgentSession.resolvePermission (s : AgentSession) (requestId : String)
    (behavior : Behavior) (updatedInput : Option JsObj)
    (message : Option String) : AgentSession × List Action :=
  match List.lookup requestId s.pendingRequests with
  | none => (s, [])
  | some pending =>
    let s1 := { s with pendingRequests :=
      s.pendingRequests.eraseP (fun p => p.1 == requestId) }
    match behavior with
    | .allow =>
      (s1, [.resolve requestId (.allow (updatedInput.getD pending.toolInput))])
    | .deny =>
      (s1, [.resolve requestId (.deny (message.getD "Denied by user"))])

/-- The payload of a question resolution: the original tool input with the
`answers` property set to the answer record — the spread-and-assign object
literal in `resolveQuestion`. -/
def mergeAnswers (toolInput : JsObj) (answers : List (String × String)) : JsObj :=
  jsSet toolInput "answers" (recordOfPairs answers)

/-- `AgentSession.resolveQuestion`: same lookup discipline; always resolves
`allow`, with the merged payload. -/
def AgentSession.resolveQuestion (s : AgentSession) (requestId : String)
    (answers : List (String × String)) : AgentSession × List Action :=
  match List.lookup requestId s.pendingRequests with
  | none => (s, [])
  | some pending =>
    ({ s with pendingRequests :=
        s.pendingRequests.eraseP (fun p => p.1 == requestId) },
     [.resolve requestId (.allow (mergeAnswers pending.toolInput answers))])

/-- Decimal digit character. -/
def digitCh (d : Nat) : Char := Char.ofNat (48 + d)

/-- Decimal rendering of a natural number — what the template literal
interpolating the counter prints. -/
def decRepr (n : Nat) : String :=
  if n = 0 then "0" else String.mk ((Nat.digits 10 n).reverse.map digitCh)

/-- The generated request id for counter value `n`. -/
def mkRequestId (n : Nat) : String := "req_" ++ decRepr n

/-- `canUseTool` callback: generate a fresh id from the incremented counter,
park a pending request, and emit a `question` for the AskUserQuestion tool or
a `permission_request` for every other tool. -/
def AgentSession.handleCanUseTool (s : AgentSession) (toolName : String)
    (input : JsObj) (toolUseId : String) (suggestions : Option JsValue) :
    AgentSession × List Action :=
  let counter := s.requestCounter + 1
  let requestId := mkRequestId counter
  let ev : OutboundMessage :=
    if toolName = "AskUserQuestion" then
      .question s.sessionId requestId (jsGet input "questions")
    else
      .permissionRequest s.sessionId requestId toolName (.obj input) toolUseId
        suggestions
  ({ s with
      requestCounter := counter
      pendingRequests := s.pendingRequests ++ [(requestId, ⟨input⟩)] },
   [.emit ev])

/-! ## The broker (server.ts, AgentServer) -/

/-- `Map.set` on an association list: overwrite in place, else append. -/
def mapSet (m : List (String × AgentSession)) (k : String) (v : AgentSession) :
    List (String × AgentSession) :=
  if m.any (fun p => p.1 = k) then
    m.map (fun p => if p.1 = k then (k, v) else p)
  else m ++ [(k, v)]

/-- The broker: the session registry (and ambient process cwd, which new
sessions capture at construction). -/
structure AgentServer where
  sessions : List (String × AgentSession)
  processCwd : String

/-- `getSession(id)?.op(...)`: look the session up, logging when absent, and
store its mutated state back. -/
def withSession (srv : AgentServer) (sessionId : String)
    (f : AgentSession → AgentSession × List Action) :
    AgentServer × List Action :=
  match List.lookup sessionId srv.sessions with
  | none =>
    (srv, [.logError ("[server] session \x27" ++ sessionId ++ "\x27 not found")])
  | some s =>
    let (s2, acts) := f s
    ({ srv with sessions := mapSet srv.sessions sessionId s2 }, acts)

/-- `AgentServer.startSession`: a registered id is rejected with a scoped
error and nothing else happens; otherwise a fresh session is created,
registered, and started. -/
def AgentServer.startSession (srv : AgentServer) (msg : StartSessionMsg)
    (outcome : EngineOutcome) : AgentServer × List Action :=
  if srv.sessions.any (fun p => p.1 = msg.sessionId) then
    (srv, [.emit (.error msg.sessionId
      ("Session \x27" ++ msg.sessionId ++ "\x27 already exists") none)])
  else
    let session := AgentSession.init msg.sessionId srv.processCwd
    let (s2, acts) := session.start msg outcome
    ({ srv with sessions := mapSet srv.sessions msg.sessionId s2 }, acts)

/-- `AgentServer.resumeSession`: no duplicate check — a fresh session is
created and stored under the id unconditionally. -/
def AgentServer.resumeSession (srv : AgentServer)
    (sessionId claudeSessionId prompt cwd : String) (outcome : EngineOutcome) :
    AgentServer × List Action :=
  let session := AgentSession.init sessionId srv.processCwd
  let (s2, acts) := session.resume claudeSessionId prompt cwd outcome
  ({ srv with sessions := mapSet srv.sessions sessionId s2 }, acts)

/-- `AgentServer.closeSession`: close and deregister a known session; reply
with a scoped error for an unknown one. -/
def AgentServer.closeSession (srv : AgentServer) (sessionId : String) :
    AgentServer × List Action :=
  match List.lookup sessionId srv.sessions with
  | some session =>
    let (_, acts) := session.close
    ({ srv with sessions :=
        srv.sessions.eraseP (fun p => p.1 == sessionId) }, acts)
  | none =>
    (srv, [.emit (.error sessionId
      ("Session \x27" ++ sessionId ++ "\x27 not found") none)])

/-- The broker's inbound dispatch (`handleMessage`). -/
def AgentServer.handleMessage (srv : AgentServer) (msg : InboundMessage)
    (outcome : EngineOutcome) : AgentServer × List Action :=
  match msg with
  | .startSession sessionId cwd prompt sp model pm tools ss =>
    srv.startSession ⟨sessionId, cwd, prompt, sp, model, pm, tools, ss⟩ outcome
  | .sendPrompt sessionId prompt =>
    withSession srv sessionId (fun s => s.sendPrompt prompt outcome)
  | .resumeSession sessionId cid prompt cwd =>
    srv.resumeSession sessionId cid prompt cwd outcome
  | .permissionResponse sessionId requestId behavior ui m =>
    withSession srv sessionId (fun s => s.resolvePermission requestId behavior ui m)
  | .questionResponse sessionId requestId answers =>
    withSession srv sessionId (fun s => s.resolveQuestion requestId answers)
  | .interrupt sessionId => withSession srv sessionId (fun s => s.interrupt)
  | .closeSession sessionId => srv.closeSession sessionId

/-! ## Observables of an action list -/

/-- The `session_status` values emitted, in order. -/
def statusesOf (acts : List Action) : List SessionStatus :=
  acts.filterMap (fun a => match a with
    | .emit (.sessionStatus _ st) => some st
    | _ => none)

/-- The pending-request resolutions performed, in order. -/
def resolvesOf (acts : List Action) : List (String × PermissionResult) :=
  acts.filterMap (fun a => match a with
    | .resolve rid r => some (rid, r)
    | _ => none)

/-- The engine invocations started, in order. -/
def invokesOf (acts : List Action) : List (String × Options) :=
  acts.filterMap (fun a => match a with
    | .invoke p o => some (p, o)
    | _ => none)

/-- The `error` events emitted, in order. -/
def errorsOf (acts : List Action) : List String :=
  acts.filterMap (fun a => match a with
    | .emit (.error _ e _) => some e
    | _ => none)

/-- The outbound events emitted, in order. -/
def emitsOf (acts : List Action) : List OutboundMessage :=
  acts.filterMap (fun a => match a with
    | .emit m => some m
    | _ => none)

/-! ## Request ids are never reused -/

theorem digitCh_inj {a b : Nat} (ha : a < 10) (hb : b < 10)
    (h : digitCh a = digitCh b) : a = b := by
  have hfin : ∀ x y : Fin 10, digitCh x.val = digitCh y.val → x.val = y.val := by
    decide
  exact hfin ⟨a, ha⟩ ⟨b, hb⟩ h

theorem mapDigits_inj : ∀ {l1 l2 : List Nat}, (∀ d ∈ l1, d < 10) →
    (∀ d ∈ l2, d < 10) → l1.map digitCh = l2.map digitCh → l1 = l2 := by
  intro l1
  induction l1 with
  | nil => intro l2 _ _ h; cases l2 <;> simp_all
  | cons a t ih =>
    intro l2 h1 h2 h
    cases l2 with
    | nil => simp at h
    | cons b t2 =>
      simp only [List.map_cons, List.cons.injEq] at h
      have hab := digitCh_inj (h1 a (by simp)) (h2 b (by simp)) h.1
      have ht := ih (fun d hd => h1 d (by simp [hd]))
        (fun d hd => h2 d (by simp [hd])) h.2
      rw [hab, ht]

theorem string_mk_inj {a b : List Char} (h : String.mk a = String.mk b) :
    a = b := congrArg String.data h

theorem decRepr_inj {m k : Nat} (h : decRepr m = decRepr k) : m = k := by
  have hdm : ∀ d ∈ Nat.digits 10 m, d < 10 :=
    fun d hd => Nat.digits_lt_base (by norm_num) hd
  have hdk : ∀ d ∈ Nat.digits 10 k, d < 10 :=
    fun d hd => Nat.digits_lt_base (by norm_num) hd
  by_cases hm : m = 0 <;> by_cases hk : k = 0
  · rw [hm, hk]
  · exfalso
    rw [decRepr, if_pos hm, decRepr, if_neg hk] at h
    have hdata : ['0'] = (Nat.digits 10 k).reverse.map digitCh :=
      string_mk_inj h
    have : [(0 : Nat)].map digitCh = (Nat.digits 10 k).reverse.map digitCh := by
      simpa using hdata
    have hrev : [(0 : Nat)] = (Nat.digits 10 k).reverse :=
      mapDigits_inj (by simp) (fun d hd => hdk d (List.mem_reverse.mp hd)) this
    have hdig : Nat.digits 10 k = [0] := by
      have := congrArg List.reverse hrev
      simpa using this.symm
    have := Nat.ofDigits_digits 10 k
    rw [hdig] at this
    simp [Nat.ofDigits] at this
    exact hk this.symm
  · exfalso
    rw [decRepr, if_neg hm, decRepr, if_pos hk] at h
    have hdata : (Nat.digits 10 m).reverse.map digitCh = ['0'] :=
      string_mk_inj h
    have : (Nat.digits 10 m).reverse.map digitCh = [(0 : Nat)].map digitCh := by
      simpa using hdata
    have hrev : (Nat.digits 10 m).reverse = [(0 : Nat)] :=
      mapDigits_inj (fun d hd => hdm d (List.mem_reverse.mp hd)) (by simp) this
    have hdig : Nat.digits 10 m = [0] := by
      have := congrArg List.reverse hrev
      simpa using this
    have := Nat.ofDigits_digits 10 m
    rw [hdig] at this
    simp [Nat.ofDigits] at this
    exact hm this.symm
  · rw [decRepr, if_neg hm, decRepr, if_neg hk] at h
    have hdata := string_mk_inj h
    have hrev := mapDigits_inj
      (fun d hd => hdm d (List.mem_reverse.mp hd))
      (fun d hd => hdk d (List.mem_reverse.mp hd)) hdata
    have hdig : Nat.digits 10 m = Nat.digits 10 k := by
      have := congrArg List.reverse hrev
      simpa using this
    have h1 := Nat.ofDigits_digits 10 m
    have h2 := Nat.ofDigits_digits 10 k
    rw [hdig] at h1
    rw [h2] at h1
    exact h1.symm

theorem mkRequestId_inj {m k : Nat} (h : mkRequestId m = mkRequestId k) :
    m = k := by
  unfold mkRequestId at h
  have hdata := congrArg String.data h
  rw [String.data_append, String.data_append] at hdata
  have hsuffix := List.append_cancel_left hdata
  exact decRepr_inj (by rw [← mkData (decRepr m), ← mkData (decRepr k), hsuffix])

/-! ## Association list facts -/

theorem lookup_cons_self {β : Type} (k : String) (v : β)
    (t : List (String × β)) : List.lookup k ((k, v) :: t) = some v := by
  simp [List.lookup_cons]

theorem lookup_cons_ne {β : Type} {k ka : String} (va : β)
    (t : List (String × β)) (h : k ≠ ka) :
    List.lookup k ((ka, va) :: t) = List.lookup k t := by
  simp [List.lookup_cons, beq_eq_false_iff_ne.mpr h]

theorem lookup_eq_none_iff {β : Type} {l : List (String × β)} {k : String} :
    List.lookup k l = none ↔ k ∉ l.map Prod.fst := by
  induction l with
  | nil => simp
  | cons a t ih =>
    obtain ⟨ka, va⟩ := a
    by_cases hk : k = ka
    · subst hk
      rw [lookup_cons_self]
      simp
    · rw [lookup_cons_ne va t hk]
      simp only [List.map_cons, List.mem_cons]
      simp [ih, hk]

theorem lookup_append_none {β : Type} {l : List (String × β)} {k k2 : String}
    {v : β} (h : List.lookup k l = none) (hne : k2 ≠ k) :
    List.lookup k (l ++ [(k2, v)]) = none := by
  induction l with
  | nil =>
    rw [List.nil_append, lookup_cons_ne v [] (Ne.symm hne)]
    rfl
  | cons a t ih =>
    obtain ⟨ka, va⟩ := a
    by_cases hk : k = ka
    · subst hk; rw [lookup_cons_self] at h; simp at h
    · rw [lookup_cons_ne va t hk] at h
      rw [List.cons_append, lookup_cons_ne va (t ++ [(k2, v)]) hk]
      exact ih h

theorem lookup_eraseP_none {β : Type} {l : List (String × β)} {k : String}
    {q : String × β → Bool} (h : List.lookup k l = none) :
    List.lookup k (l.eraseP q) = none := by
  induction l with
  | nil => simp
  | cons a t ih =>
    obtain ⟨ka, va⟩ := a
    by_cases hk : k = ka
    · subst hk; rw [lookup_cons_self] at h; simp at h
    · rw [lookup_cons_ne va t hk] at h
      rw [List.eraseP_cons]
      by_cases hq : q (ka, va) = true
      · rw [hq, cond_true]; exact h
      · rw [Bool.not_eq_true] at hq
        rw [hq, cond_false, lookup_cons_ne va (t.eraseP q) hk]
        exact ih h

theorem lookup_eraseP_self {β : Type} {l : List (String × β)} {k : String}
    (hnd : (l.map Prod.fst).Nodup) :
    List.lookup k (l.eraseP (fun p => p.1 == k)) = none := by
  induction l with
  | nil => simp
  | cons a t ih =>
    obtain ⟨ka, va⟩ := a
    simp only [List.map_cons, List.nodup_cons] at hnd
    rw [List.eraseP_cons]
    by_cases hk : ka = k
    · subst hk
      rw [show (((ka, va) : String × β).1 == ka) = true by simp, cond_true]
      exact lookup_eq_none_iff.mpr hnd.1
    · rw [show (((ka, va) : String × β).1 == k) = false by
          simpa using beq_eq_false_iff_ne.mpr hk,
        cond_false, lookup_cons_ne va _ (Ne.symm hk)]
      exact ih hnd.2

theorem any_of_lookup {β : Type} {l : List (String × β)} {k : String} {v : β}
    (h : List.lookup k l = some v) : l.any (fun p => p.1 = k) = true := by
  induction l with
  | nil => simp at h
  | cons a t ih =>
    obtain ⟨ka, va⟩ := a
    by_cases hk : k = ka
    · subst hk; simp
    · rw [lookup_cons_ne va t hk] at h
      simp [ih h]

theorem lookup_mapSet (m : List (String × AgentSession)) (k : String)
    (v : AgentSession) : List.lookup k (mapSet m k v) = some v := by
  unfold mapSet
  by_cases hany : m.any (fun p => p.1 = k) = true
  · rw [if_pos hany]
    induction m with
    | nil => simp at hany
    | cons a t ih =>
      obtain ⟨ka, va⟩ := a
      by_cases hk : ka = k
      · subst hk
        rw [List.map_cons, if_pos rfl, lookup_cons_self]
      · rw [List.any_cons] at hany
        simp only [hk, decide_eq_true_eq, Bool.or_eq_true] at hany
        have hany2 : t.any (fun p => p.1 = k) = true := by
          rcases hany with h1 | h2
          · exact h1.elim
          · exact h2
        rw [List.map_cons, if_neg (by simpa using hk),
          lookup_cons_ne (va) _ (Ne.symm hk)]
        exact ih hany2
  · rw [if_neg hany]
    have hn : List.lookup k m = none := by
      rw [lookup_eq_none_iff]
      intro hmem
      apply hany
      rw [List.any_eq_true]
      obtain ⟨p, hp, hpk⟩ := List.mem_map.mp hmem
      exact ⟨p, hp, by simp [hpk]⟩
    clear hany
    induction m with
    | nil => rw [List.nil_append, lookup_cons_self]
    | cons a t ih =>
      obtain ⟨ka, va⟩ := a
      by_cases hk : k = ka
      · subst hk; rw [lookup_cons_self] at hn; simp at hn
      · rw [lookup_cons_ne va t hk] at hn
        rw [List.cons_append, lookup_cons_ne va _ hk]
        exact ih hn

/-! ## Invocations and their observable effects -/

theorem forwardMessage_state (s : AgentSession) (m : SDKMessage) :
    (forwardMessage s m).1.pendingRequests = s.pendingRequests ∧
    (forwardMessage s m).1.requestCounter = s.requestCounter ∧
    (forwardMessage s m).1.sessionId = s.sessionId ∧
    (forwardMessage s m).1.activeQuery = s.activeQuery := by
  cases m <;> simp [forwardMessage]

theorem forwardAll_state : ∀ (msgs : List SDKMessage) (s : AgentSession),
    (forwardAll s msgs).1.pendingRequests = s.pendingRequests ∧
    (forwardAll s msgs).1.requestCounter = s.requestCounter ∧
    (forwardAll s msgs).1.sessionId = s.sessionId ∧
    (forwardAll s msgs).1.activeQuery = s.activeQuery := by
  intro msgs
  induction msgs with
  | nil => intro s; simp [forwardAll]
  | cons m rest ih =>
    intro s
    have h1 := forwardMessage_state s m
    have h2 := ih (forwardMessage s m).1
    simp only [forwardAll]
    exact ⟨by rw [h2.1, h1.1], by rw [h2.2.1, h1.2.1],
      by rw [h2.2.2.1, h1.2.2.1], by rw [h2.2.2.2, h1.2.2.2]⟩

theorem runQuery_state (s : AgentSession) (p : String) (o : Options)
    (out : EngineOutcome) :
    (runQuery s p o out).1.pendingRequests = s.pendingRequests ∧
    (runQuery s p o out).1.requestCounter = s.requestCounter ∧
    (runQuery s p o out).1.sessionId = s.sessionId ∧
    (runQuery s p o out).1.activeQuery = false := by
  have h := forwardAll_state out.msgs { s with activeQuery := true }
  simp only [runQuery]
  exact ⟨h.1, h.2.1, h.2.2.1, by trivial⟩

theorem blockActions_obs (sid uuid : String) (b : ContentBlock) :
    statusesOf (blockActions sid uuid b) = [] ∧
    resolvesOf (blockActions sid uuid b) = [] ∧
    invokesOf (blockActions sid uuid b) = [] ∧
    errorsOf (blockActions sid uuid b) = [] := by
  cases b <;> simp [blockActions, statusesOf, resolvesOf, invokesOf, errorsOf]

theorem blocksActions_obs (sid uuid : String) :
    ∀ bs : List ContentBlock,
    statusesOf (blocksActions sid uuid bs) = [] ∧
    resolvesOf (blocksActions sid uuid bs) = [] ∧
    invokesOf (blocksActions sid uuid bs) = [] ∧
    errorsOf (blocksActions sid uuid bs) = [] := by
  intro bs
  induction bs with
  | nil => simp [blocksActions, statusesOf, resolvesOf, invokesOf, errorsOf]
  | cons b rest ih =>
    have hb := blockActions_obs sid uuid b
    simp only [blocksActions, statusesOf, resolvesOf, invokesOf, errorsOf,
      List.filterMap_append] at *
    exact ⟨by rw [hb.1, ih.1]; rfl, by rw [hb.2.1, ih.2.1]; rfl,
      by rw [hb.2.2.1, ih.2.2.1]; rfl, by rw [hb.2.2.2, ih.2.2.2]; rfl⟩

theorem assistantActions_obs (sid uuid : String)
    (content : Option (List ContentBlock)) :
    statusesOf (assistantActions sid uuid content) = [] ∧
    resolvesOf (assistantActions sid uuid content) = [] ∧
    invokesOf (assistantActions sid uuid content) = [] ∧
    errorsOf (assistantActions sid uuid content) = [] := by
  cases content with
  | none => simp [assistantActions, statusesOf, resolvesOf, invokesOf, errorsOf]
  | some blocks =>
    have hb := blocksActions_obs sid uuid blocks
    by_cases ht : textParts blocks = [] <;>
      simp_all [assistantActions, statusesOf, resolvesOf, invokesOf, errorsOf,
        List.filterMap_append]

theorem forwardMessage_obs (s : AgentSession) (m : SDKMessage) :
    statusesOf (forwardMessage s m).2 = [] ∧
    resolvesOf (forwardMessage s m).2 = [] ∧
    invokesOf (forwardMessage s m).2 = [] ∧
    errorsOf (forwardMessage s m).2 = [] := by
  cases m with
  | assistant uuid content => exact assistantActions_obs s.sessionId uuid content
  | _ => simp [forwardMessage, statusesOf, resolvesOf, invokesOf, errorsOf]

theorem forwardAll_obs : ∀ (msgs : List SDKMessage) (s : AgentSession),
    statusesOf (forwardAll s msgs).2 = [] ∧
    resolvesOf (forwardAll s msgs).2 = [] ∧
    invokesOf (forwardAll s msgs).2 = [] ∧
    errorsOf (forwardAll s msgs).2 = [] := by
  intro msgs
  induction msgs with
  | nil => intro s; simp [forwardAll, statusesOf, resolvesOf, invokesOf, errorsOf]
  | cons m rest ih =>
    intro s
    have h1 := forwardMessage_obs s m
    have h2 := ih (forwardMessage s m).1
    simp only [forwardAll, statusesOf, resolvesOf, invokesOf, errorsOf,
      List.filterMap_append] at *
    exact ⟨by rw [h1.1, h2.1]; rfl, by rw [h1.2.1, h2.2.1]; rfl,
      by rw [h1.2.2.1, h2.2.2.1]; rfl, by rw [h1.2.2.2, h2.2.2.2]; rfl⟩

theorem runQuery_obs (s : AgentSession) (p : String) (o : Options)
    (out : EngineOutcome) :
    statusesOf (runQuery s p o out).2 = [.processing, .idle] ∧
    resolvesOf (runQuery s p o out).2 = [] ∧
    invokesOf (runQuery s p o out).2 = [(p, o)] ∧
    errorsOf (runQuery s p o out).2
      = (match out.err with | some e => [e] | none => []) := by
  have h := forwardAll_obs out.msgs { s with activeQuery := true }
  cases he : out.err <;>
    simp_all [runQuery, statusesOf, resolvesOf, invokesOf, errorsOf,
      List.filterMap_append]

/-! ## Session operation traces -/

/-- One externally triggered session operation, with the engine outcome its
invocation (if any) produces. -/
inductive SessionOp where
  | start (config : StartSessionMsg) (outcome : EngineOutcome)
  | sendPrompt (prompt : String) (outcome : EngineOutcome)
  | resume (claudeSessionId prompt cwd : String) (outcome : EngineOutcome)
  | interrupt
  | close
  | canUseTool (toolName : String) (input : JsObj) (toolUseId : String)
      (suggestions : Option JsValue)
  | resolvePermission (requestId : String) (behavior : Behavior)
      (updatedInput : Option JsObj) (message : Option String)
  | resolveQuestion (requestId : String) (answers : List (String × String))

/-- Dispatch one operation against the session. -/
def sessionStep (s : AgentSession) : SessionOp → AgentSession × List Action
  | .start config outcome => s.start config outcome
  | .sendPrompt prompt outcome => s.sendPrompt prompt outcome
  | .resume cid prompt cwd outcome => s.resume cid prompt cwd outcome
  | .interrupt => s.interrupt
  | .close => s.close
  | .canUseTool tn input tid sg => s.handleCanUseTool tn input tid sg
  | .resolvePermission rid b ui m => s.resolvePermission rid b ui m
  | .resolveQuestion rid ans => s.resolveQuestion rid ans

/-- The state after a sequence of operations. -/
def runOps (s : AgentSession) : List SessionOp → AgentSession
  | [] => s
  | op :: rest => runOps (sessionStep s op).1 rest

/-- An operation that answers the pending request `rid`. -/
def ResolveOpFor (op : SessionOp) (rid : String) : Prop :=
  match op with
  | .resolvePermission r _ _ _ => r = rid
  | .resolveQuestion r _ => r = rid
  | _ => False

/-- The session-state invariant: every parked request id was minted from a
counter value between 1 and the current counter, and the ids are distinct. -/
def SessionInv (s : AgentSession) : Prop :=
  (∀ id ∈ s.pendingRequests.map Prod.fst,
    ∃ k, 1 ≤ k ∧ k ≤ s.requestCounter ∧ id = mkRequestId k)
  ∧ (s.pendingRequests.map Prod.fst).Nodup

theorem sessionInv_init (sid cwd : String) :
    SessionInv (AgentSession.init sid cwd) := by
  constructor
  · intro id hid; simp [AgentSession.init] at hid
  · simp [AgentSession.init]

theorem sessionInv_step (s : AgentSession) (op : SessionOp)
    (h : SessionInv s) : SessionInv (sessionStep s op).1 := by
  obtain ⟨hall, hnd⟩ := h
  cases op with
  | start config outcome =>
    simp only [sessionStep, AgentSession.start]
    constructor
    · rw [(runQuery_state _ _ _ _).1, (runQuery_state _ _ _ _).2.1]
      exact hall
    · rw [(runQuery_state _ _ _ _).1]
      exact hnd
  | sendPrompt prompt outcome =>
    simp only [sessionStep, AgentSession.sendPrompt]
    cases hc : s.claudeSessionId with
    | none => exact ⟨hall, hnd⟩
    | some cid =>
      constructor
      · rw [(runQuery_state _ _ _ _).1, (runQuery_state _ _ _ _).2.1]
        exact hall
      · rw [(runQuery_state _ _ _ _).1]
        exact hnd
  | resume cid prompt cwd outcome =>
    simp only [sessionStep, AgentSession.resume]
    constructor
    · rw [(runQuery_state _ _ _ _).1, (runQuery_state _ _ _ _).2.1]
      exact hall
    · rw [(runQuery_state _ _ _ _).1]
      exact hnd
  | interrupt =>
    simp only [sessionStep, AgentSession.interrupt]
    by_cases ha : s.activeQuery <;> simp [ha] <;> exact ⟨hall, hnd⟩
  | close =>
    simp only [sessionStep, AgentSession.close]
    exact ⟨by intro id hid; simp at hid, by simp⟩
  | canUseTool tn input tid sg =>
    simp only [sessionStep, AgentSession.handleCanUseTool]
    constructor
    · intro id hid
      rw [List.map_append, List.mem_append] at hid
      rcases hid with h1 | h2
      · obtain ⟨k, hk1, hk2, hk3⟩ := hall id h1
        exact ⟨k, hk1, by show k ≤ s.requestCounter + 1; omega, hk3⟩
      · simp at h2
        exact ⟨s.requestCounter + 1, by omega, le_refl _, h2⟩
    · rw [List.map_append]
      simp only [List.map_cons, List.map_nil]
      rw [List.nodup_append]
      refine ⟨hnd, by simp, ?_⟩
      intro id h1 h2
      simp at h2
      obtain ⟨k, hk1, hk2, hk3⟩ := hall id h1
      rw [h2] at hk3
      have := mkRequestId_inj hk3
      omega
  | resolvePermission rid b ui m =>
    simp only [sessionStep, AgentSession.resolvePermission]
    cases hl : List.lookup rid s.pendingRequests with
    | none => exact ⟨hall, hnd⟩
    | some pending =>
      have hsub : (s.pendingRequests.eraseP (fun p => p.1 == rid)).Sublist
          s.pendingRequests := List.eraseP_sublist _
      have hmapsub := hsub.map Prod.fst
      cases b <;>
        exact ⟨fun id hid => hall id (hmapsub.mem hid), hnd.sublist hmapsub⟩
  | resolveQuestion rid ans =>
    simp only [sessionStep, AgentSession.resolveQuestion]
    cases hl : List.lookup rid s.pendingRequests with
    | none => exact ⟨hall, hnd⟩
    | some pending =>
      have hsub : (s.pendingRequests.eraseP (fun p => p.1 == rid)).Sublist
          s.pendingRequests := List.eraseP_sublist _
      have hmapsub := hsub.map Prod.fst
      exact ⟨fun id hid => hall id (hmapsub.mem hid), hnd.sublist hmapsub⟩

theorem sessionInv_runOps (s : AgentSession) (ops : List SessionOp)
    (h : SessionInv s) : SessionInv (runOps s ops) := by
  induction ops generalizing s with
  | nil => exact h
  | cons op rest ih => exact ih _ (sessionInv_step s op h)

/-- Once a minted id has been resolved and removed it never returns: the
lookup stays `none` through any further operations (freshly minted ids are
strictly larger than the counter value it was minted from). -/
def ResolvedGone (rid : String) (k : Nat) (s : AgentSession) : Prop :=
  List.lookup rid s.pendingRequests = none ∧ rid = mkRequestId k ∧
    k ≤ s.requestCounter

theorem resolvedGone_step (rid : String) (k : Nat) (s : AgentSession)
    (op : SessionOp) (h : ResolvedGone rid k s) :
    ResolvedGone rid k (sessionStep s op).1 := by
  obtain ⟨hnone, hrid, hk⟩ := h
  cases op with
  | start config outcome =>
    simp only [sessionStep, AgentSession.start]
    refine ⟨?_, hrid, ?_⟩
    · rw [(runQuery_state _ _ _ _).1]
      exact hnone
    · rw [(runQuery_state _ _ _ _).2.1]
      exact hk
  | sendPrompt prompt outcome =>
    simp only [sessionStep, AgentSession.sendPrompt]
    cases hc : s.claudeSessionId with
    | none => exact ⟨hnone, hrid, hk⟩
    | some cid =>
      refine ⟨?_, hrid, ?_⟩
      · rw [(runQuery_state _ _ _ _).1]
        exact hnone
      · rw [(runQuery_state _ _ _ _).2.1]
        exact hk
  | resume cid prompt cwd outcome =>
    simp only [sessionStep, AgentSession.resume]
    refine ⟨?_, hrid, ?_⟩
    · rw [(runQuery_state _ _ _ _).1]
      exact hnone
    · rw [(runQuery_state _ _ _ _).2.1]
      exact hk
  | interrupt =>
    simp only [sessionStep, AgentSession.interrupt]
    by_cases ha : s.activeQuery <;> simp [ha] <;> exact ⟨hnone, hrid, hk⟩
  | close =>
    simp only [sessionStep, AgentSession.close]
    exact ⟨by simp, hrid, hk⟩
  | canUseTool tn input tid sg =>
    simp only [sessionStep, AgentSession.handleCanUseTool]
    refine ⟨?_, hrid, by simp; omega⟩
    apply lookup_append_none hnone
    intro hcontra
    rw [← hcontra] at hrid
    have := mkRequestId_inj hrid
    omega
  | resolvePermission rid2 b ui m =>
    simp only [sessionStep, AgentSession.resolvePermission]
    cases hl : List.lookup rid2 s.pendingRequests with
    | none => exact ⟨hnone, hrid, hk⟩
    | some pending =>
      cases b <;> exact ⟨lookup_eraseP_none hnone, hrid, hk⟩
  | resolveQuestion rid2 ans =>
    simp only [sessionStep, AgentSession.resolveQuestion]
    cases hl : List.lookup rid2 s.pendingRequests with
    | none => exact ⟨hnone, hrid, hk⟩
    | some pending =>
      exact ⟨lookup_eraseP_none hnone, hrid, hk⟩

theorem resolvedGone_runOps (rid : String) (k : Nat) (s : AgentSession)
    (ops : List SessionOp) (h : ResolvedGone rid k s) :
    ResolvedGone rid k (runOps s ops) := by
  induction ops generalizing s with
  | nil => exact h
  | cons op rest ih => exact ih _ (resolvedGone_step rid k s op h)

/-! ## Unfolding equations for the session operations -/

theorem resolvePermission_absent (s : AgentSession) (rid : String)
    (b : Behavior) (ui : Option JsObj) (m : Option String)
    (h : List.lookup rid s.pendingRequests = none) :
    s.resolvePermission rid b ui m = (s, []) := by
  unfold AgentSession.resolvePermission
  rw [h]

theorem resolveQuestion_absent (s : AgentSession) (rid : String)
    (ans : List (String × String))
    (h : List.lookup rid s.pendingRequests = none) :
    s.resolveQuestion rid ans = (s, []) := by
  unfold AgentSession.resolveQuestion
  rw [h]

theorem resolvePermission_found (s : AgentSession) (rid : String)
    (pending : PendingRequest) (b : Behavior) (ui : Option JsObj)
    (m : Option String)
    (h : List.lookup rid s.pendingRequests = some pending) :
    (s.resolvePermission rid b ui m).1
      = { s with pendingRequests :=
          s.pendingRequests.eraseP (fun p => p.1 == rid) } ∧
    (s.resolvePermission rid b ui m).2
      = [.resolve rid (match b with
          | .allow => .allow (ui.getD pending.toolInput)
          | .deny => .deny (m.getD "Denied by user"))] := by
  unfold AgentSession.resolvePermission
  rw [h]
  cases b <;> exact ⟨rfl, rfl⟩

theorem resolveQuestion_found (s : AgentSession) (rid : String)
    (pending : PendingRequest) (ans : List (String × String))
    (h : List.lookup rid s.pendingRequests = some pending) :
    (s.resolveQuestion rid ans).1
      = { s with pendingRequests :=
          s.pendingRequests.eraseP (fun p => p.1 == rid) } ∧
    (s.resolveQuestion rid ans).2
      = [.resolve rid (.allow (mergeAnswers pending.toolInput ans))] := by
  unfold AgentSession.resolveQuestion
  rw [h]
  exact ⟨rfl, rfl⟩

theorem start_fst (s : AgentSession) (config : StartSessionMsg)
    (out : EngineOutcome) :
    (s.start config out).1
      = (runQuery { s with lastCwd := config.cwd } config.prompt
          (startOptions config) out).1 := rfl

theorem start_snd (s : AgentSession) (config : StartSessionMsg)
    (out : EngineOutcome) :
    (s.start config out).2
      = .emit (.sessionStatus s.sessionId .started)
        :: (runQuery { s with lastCwd := config.cwd } config.prompt
            (startOptions config) out).2 := rfl

theorem sendPrompt_eq_none (s : AgentSession) (prompt : String)
    (out : EngineOutcome) (hcid : s.claudeSessionId = none) :
    s.sendPrompt prompt out
      = (s, [.emit (.error s.sessionId
          "No active session to send prompt to" none)]) := by
  unfold AgentSession.sendPrompt
  rw [hcid]

theorem sendPrompt_eq_some (s : AgentSession) (prompt cid : String)
    (out : EngineOutcome) (hcid : s.claudeSessionId = some cid) :
    s.sendPrompt prompt out
      = runQuery s prompt (resumeOptions s.lastCwd cid) out := by
  unfold AgentSession.sendPrompt
  rw [hcid]

theorem resume_eq (s : AgentSession) (cid prompt cwd : String)
    (out : EngineOutcome) :
    s.resume cid prompt cwd out
      = runQuery { s with lastCwd := cwd } prompt (resumeOptions cwd cid)
          out := rfl

theorem resumeSession_snd (srv : AgentServer) (sid cid prompt cwd : String)
    (out : EngineOutcome) :
    (srv.resumeSession sid cid prompt cwd out).2
      = ((AgentSession.init sid srv.processCwd).resume cid prompt cwd out).2 :=
  rfl

theorem resumeSession_sessions (srv : AgentServer) (sid cid prompt cwd : String)
    (out : EngineOutcome) :
    (srv.resumeSession sid cid prompt cwd out).1.sessions
      = mapSet srv.sessions sid
          ((AgentSession.init sid srv.processCwd).resume cid prompt cwd out).1 :=
  rfl

theorem statusesOf_cons_status (sid : String) (st : SessionStatus)
    (rest : List Action) :
    statusesOf (.emit (.sessionStatus sid st) :: rest)
      = st :: statusesOf rest := rfl

theorem errorsOf_cons_status (sid : String) (st : SessionStatus)
    (rest : List Action) :
    errorsOf (.emit (.sessionStatus sid st) :: rest) = errorsOf rest := rfl

/-- With a failing outcome the action list of `runQuery` ends in the `error`
event immediately followed by the `idle` status. -/
theorem runQuery_err (s : AgentSession) (p : String) (o : Options)
    (out : EngineOutcome) (e : String) (herr : out.err = some e) :
    (runQuery s p o out).2
      = .emit (.sessionStatus s.sessionId .processing) :: .invoke p o
          :: ((forwardAll { s with activeQuery := true } out.msgs).2
              ++ [.emit (.error s.sessionId e none),
                  .emit (.sessionStatus s.sessionId .idle)]) := by
  simp only [runQuery, herr]
  simp

/-- The observable shape of a failing invocation: statuses `processing` then
`idle`, exactly one `error` event, the error emitted before the `idle`
transition, and the active-query flag cleared. -/
theorem runQuery_errBundle (s : AgentSession) (p : String) (o : Options)
    (out : EngineOutcome) (e : String) (herr : out.err = some e) :
    statusesOf (runQuery s p o out).2 = [.processing, .idle] ∧
    errorsOf (runQuery s p o out).2 = [e] ∧
    (∃ pre, (runQuery s p o out).2
       = pre ++ [.emit (.error s.sessionId e none),
                 .emit (.sessionStatus s.sessionId .idle)]) ∧
    (runQuery s p o out).1.activeQuery = false := by
  have ho := runQuery_obs s p o out
  refine ⟨ho.1, by rw [ho.2.2.2, herr], ?_, (runQuery_state s p o out).2.2.2⟩
  refine ⟨.emit (.sessionStatus s.sessionId .processing) :: .invoke p o
    :: (forwardAll { s with activeQuery := true } out.msgs).2, ?_⟩
  rw [runQuery_err s p o out e herr]
  simp

/-- `resolvesOf` of the deny actions `close` performs. -/
theorem resolvesOf_denies (ps : List (String × PendingRequest)) :
    resolvesOf (ps.map (fun p => .resolve p.1 (.deny "Session closed")))
      = ps.map (fun p => (p.1, PermissionResult.deny "Session closed")) := by
  induction ps with
  | nil => rfl
  | cons a t ih =>
    simp only [List.map_cons, resolvesOf, List.filterMap_cons] at ih ⊢
    rw [ih]

/-! ## Multi-segment framer runs -/

/-- Newline-terminated concatenation of segments. -/
def joinLines : List (List Char) → List Char
  | [] => []
  | l :: rest => l ++ '\n' :: joinLines rest

/-- Processing one newline-free segment followed by a newline. -/
theorem frameLoop_line (l rest : List Char) (hl : '\n' ∉ l) :
    frameLoop [] (l ++ '\n' :: rest)
      = (let line := jsTrim l
         let (outs, buf) := frameLoop [] rest
         if line.isEmpty then (outs, buf)
         else
           match jsonParseChars line with
           | some v => (.msg v :: outs, buf)
           | none => (.invalid (line.take 200) :: outs, buf)) := by
  rw [show l ++ '\n' :: rest = l ++ ('\n' :: rest) from rfl,
    frameLoop_no_newline hl [] ('\n' :: rest), List.nil_append,
    frameLoop_newline]

/-- Trimming a segment of nothing but trim-whitespace leaves nothing. -/
theorem jsTrim_blank {l : List Char} (h : ∀ c ∈ l, jsTrimWs c = true) :
    jsTrim l = [] := by
  unfold jsTrim
  rw [List.dropWhile_eq_nil_iff.mpr h]
  rfl

/-- A blank segment is skipped without any output. -/
theorem frameLoop_blankLine (l rest : List Char) (hnl : '\n' ∉ l)
    (hb : ∀ c ∈ l, jsTrimWs c = true) :
    frameLoop [] (l ++ '\n' :: rest) = frameLoop [] rest := by
  rw [frameLoop_line l rest hnl, jsTrim_blank hb]
  simp

/-- A run of well-formed serialized values parses back to exactly those
values, leaving an empty buffer. -/
theorem frameLoop_goodLines :
    ∀ vs : List JsValue, (∀ v ∈ vs, numsOk v = true) →
    frameLoop [] (joinLines (vs.map encVal)) = (vs.map FrameOut.msg, []) := by
  intro vs
  induction vs with
  | nil => intro h; rfl
  | cons v rest ih =>
    intro h
    have hv : numsOk v = true := h v (by simp)
    have hrest := ih (fun w hw => h w (by simp [hw]))
    obtain ⟨c, t, h1, _⟩ := encVal_edge v hv
    have hne : (encVal v).isEmpty = false := by rw [h1]; rfl
    simp only [List.map_cons, joinLines]
    rw [frameLoop_line _ _ (fun hmem => encVal_no_newline v hv '\n' hmem rfl)]
    have hparse : jsonParseChars (encVal v) = some v := jsonParse_stringify v hv
    simp [jsTrim_encVal v hv, hrest, hne, hparse]

/-- `resolvesOf` distributes over concatenation. -/
theorem resolvesOf_append (a b : List Action) :
    resolvesOf (a ++ b) = resolvesOf a ++ resolvesOf b := by
  simp [resolvesOf]

/-- `statusesOf` distributes over concatenation. -/
theorem statusesOf_append (a b : List Action) :
    statusesOf (a ++ b) = statusesOf a ++ statusesOf b := by
  simp [statusesOf]

/-- The deny actions of `close` contain no status events. -/
theorem statusesOf_denies (ps : List (String × PendingRequest)) :
    statusesOf (ps.map (fun p => .resolve p.1 (.deny "Session closed"))) = [] := by
  induction ps with
  | nil => rfl
  | cons a t ih =>
    simpa [statusesOf, List.filterMap_cons] using ih

/-! ## Concrete fixtures -/

/-- A session with one parked pending request, as left by a single decision
callback. -/
def sampleSession : AgentSession :=
  { sessionId := "s1", activeQuery := false, claudeSessionId := none,
    pendingRequests := [(mkRequestId 1, { toolInput := [] })],
    requestCounter := 1, lastCwd := "/tmp" }

/-- A session that has already captured its conversation id. -/
def sampleResumed : AgentSession :=
  { sessionId := "s1", activeQuery := false, claudeSessionId := some "c1",
    pendingRequests := [], requestCounter := 0, lastCwd := "/tmp" }

/-- An invocation that yields nothing and completes. -/
def emptyOutcome : EngineOutcome := { msgs := [], err := none }

/-- An invocation that raises. -/
def failedOutcome : EngineOutcome := { msgs := [], err := some "engine exploded" }

/-- A minimal `start_session` configuration. -/
def sampleConfig : StartSessionMsg :=
  { sessionId := "s1", cwd := "/tmp", prompt := "hi", systemPrompt := none,
    model := none, permissionMode := none, allowedTools := none,
    settingSources := none }

/-- A broker with one registered session. -/
def sampleServer : AgentServer :=
  { sessions := [("s1", AgentSession.init "s1" "/tmp")], processCwd := "/tmp" }

/-- A broker with an empty registry. -/
def emptyServer : AgentServer := { sessions := [], processCwd := "/tmp" }

/-! ## The claims -/

/-- C1: a pending decision is resolved at most once.  Resolving an id absent
from the table is a no-op for both `resolvePermission` and `resolveQuestion`,
and once a resolve operation for an id has succeeded, that id is gone from
the table and stays gone through every later operation, so any repeat
`resolvePermission` or `resolveQuestion` with the same id leaves the session
state unchanged and performs no resolution. -/
theorem claim_C1 (s s0 : AgentSession) (rid r0 : String) (k : Nat)
    (b b0 : Behavior) (ui ui0 : Option JsObj) (m m0 : Option String)
    (ans ans0 : List (String × String)) (op1 : SessionOp)
    (ops : List SessionOp)
    (hinv : SessionInv s) (hrid : rid = mkRequestId k)
    (hk : k ≤ s.requestCounter)
    (hsucc : (List.lookup rid s.pendingRequests).isSome = true)
    (habs : List.lookup r0 s0.pendingRequests = none)
    (hop : ResolveOpFor op1 rid) :
    (s0.resolvePermission r0 b0 ui0 m0 = (s0, []) ∧
     s0.resolveQuestion r0 ans0 = (s0, [])) ∧
    List.lookup rid (sessionStep s op1).1.pendingRequests = none ∧
    List.lookup rid (runOps (sessionStep s op1).1 ops).pendingRequests
      = none ∧
    (runOps (sessionStep s op1).1 ops).resolvePermission rid b ui m
      = (runOps (sessionStep s op1).1 ops, []) ∧
    (runOps (sessionStep s op1).1 ops).resolveQuestion rid ans
      = (runOps (sessionStep s op1).1 ops, []) := by
  obtain ⟨pending, hp⟩ := Option.isSome_iff_exists.mp hsucc
  have hgone1 : ResolvedGone rid k (sessionStep s op1).1 := by
    cases op1 with
    | resolvePermission r1 b1 ui1 m1 =>
      have hr : r1 = rid := hop
      subst hr
      have hf := (resolvePermission_found s r1 pending b1 ui1 m1 hp).1
      show ResolvedGone r1 k (s.resolvePermission r1 b1 ui1 m1).1
      rw [hf]
      exact ⟨lookup_eraseP_self hinv.2, hrid, hk⟩
    | resolveQuestion r1 ans1 =>
      have hr : r1 = rid := hop
      subst hr
      have hf := (resolveQuestion_found s r1 pending ans1 hp).1
      show ResolvedGone r1 k (s.resolveQuestion r1 ans1).1
      rw [hf]
      exact ⟨lookup_eraseP_self hinv.2, hrid, hk⟩
    | start config outcome => exact hop.elim
    | sendPrompt prompt outcome => exact hop.elim
    | resume c p w outcome => exact hop.elim
    | interrupt => exact hop.elim
    | close => exact hop.elim
    | canUseTool tn input tid sg => exact hop.elim
  have hgone2 := resolvedGone_runOps rid k _ ops hgone1
  exact ⟨⟨resolvePermission_absent s0 r0 b0 ui0 m0 habs,
      resolveQuestion_absent s0 r0 ans0 habs⟩,
    hgone1.1, hgone2.1,
    resolvePermission_absent _ rid b ui m hgone2.1,
    resolveQuestion_absent _ rid ans hgone2.1⟩

theorem claim_C1_witness :
    ((AgentSession.init "s0" "/tmp").resolvePermission "nope" .allow none none
        = (AgentSession.init "s0" "/tmp", []) ∧
     (AgentSession.init "s0" "/tmp").resolveQuestion "nope" []
        = (AgentSession.init "s0" "/tmp", [])) ∧
    List.lookup (mkRequestId 1)
      (sessionStep sampleSession
        (.resolveQuestion (mkRequestId 1) [])).1.pendingRequests = none ∧
    List.lookup (mkRequestId 1)
      (runOps (sessionStep sampleSession
        (.resolveQuestion (mkRequestId 1) [])).1 []).pendingRequests = none ∧
    (runOps (sessionStep sampleSession
        (.resolveQuestion (mkRequestId 1) [])).1 []).resolvePermission
        (mkRequestId 1) .deny none none
      = (runOps (sessionStep sampleSession
          (.resolveQuestion (mkRequestId 1) [])).1 [], []) ∧
    (runOps (sessionStep sampleSession
        (.resolveQuestion (mkRequestId 1) [])).1 []).resolveQuestion
        (mkRequestId 1) []
      = (runOps (sessionStep sampleSession
          (.resolveQuestion (mkRequestId 1) [])).1 [], []) :=
  claim_C1 sampleSession (AgentSession.init "s0" "/tmp") (mkRequestId 1)
    "nope" 1 .deny .allow none none none none [] []
    (.resolveQuestion (mkRequestId 1) []) []
    ⟨by
      intro id hid
      simp [sampleSession] at hid
      exact ⟨1, le_refl 1, le_refl 1, hid⟩,
     by simp [sampleSession]⟩
    rfl (le_refl 1)
    (by simp [sampleSession, List.lookup_cons])
    rfl rfl

/-- C2: an engine exception during any invocation (start, sendPrompt with a
captured conversation id, or resume) is converted into an `error` event
emitted before the final `idle` status; the run still ends `idle`, and the
session is left with the active-query flag cleared rather than stuck
Processing or destroyed. -/
theorem claim_C2 (s : AgentSession) (config : StartSessionMsg)
    (prompt cid cwd : String) (out : EngineOutcome) (e : String)
    (herr : out.err = some e) (hcid : s.claudeSessionId = some cid) :
    (statusesOf (s.start config out).2 = [.started, .processing, .idle] ∧
     errorsOf (s.start config out).2 = [e] ∧
     (∃ pre, (s.start config out).2
        = pre ++ [.emit (.error s.sessionId e none),
                  .emit (.sessionStatus s.sessionId .idle)]) ∧
     (s.start config out).1.activeQuery = false) ∧
    (statusesOf (s.sendPrompt prompt out).2 = [.processing, .idle] ∧
     errorsOf (s.sendPrompt prompt out).2 = [e] ∧
     (∃ pre, (s.sendPrompt prompt out).2
        = pre ++ [.emit (.error s.sessionId e none),
                  .emit (.sessionStatus s.sessionId .idle)]) ∧
     (s.sendPrompt prompt out).1.activeQuery = false) ∧
    (statusesOf (s.resume cid prompt cwd out).2 = [.processing, .idle] ∧
     errorsOf (s.resume cid prompt cwd out).2 = [e] ∧
     (∃ pre, (s.resume cid prompt cwd out).2
        = pre ++ [.emit (.error s.sessionId e none),
                  .emit (.sessionStatus s.sessionId .idle)]) ∧
     (s.resume cid prompt cwd out).1.activeQuery = false) := by
  refine ⟨?_, ?_, ?_⟩
  · have h := runQuery_errBundle { s with lastCwd := config.cwd } config.prompt
      (startOptions config) out e herr
    refine ⟨?_, ?_, ?_, ?_⟩
    · rw [start_snd, statusesOf_cons_status, h.1]
    · rw [start_snd, errorsOf_cons_status, h.2.1]
    · obtain ⟨pre, hpre⟩ := h.2.2.1
      refine ⟨.emit (.sessionStatus s.sessionId .started) :: pre, ?_⟩
      rw [start_snd, hpre]
      rfl
    · rw [start_fst]
      exact h.2.2.2
  · have h := runQuery_errBundle s prompt (resumeOptions s.lastCwd cid) out
      e herr
    refine ⟨?_, ?_, ?_, ?_⟩
    · rw [sendPrompt_eq_some s prompt cid out hcid]
      exact h.1
    · rw [sendPrompt_eq_some s prompt cid out hcid]
      exact h.2.1
    · rw [sendPrompt_eq_some s prompt cid out hcid]
      exact h.2.2.1
    · rw [sendPrompt_eq_some s prompt cid out hcid]
      exact h.2.2.2
  · have h := runQuery_errBundle { s with lastCwd := cwd } prompt
      (resumeOptions cwd cid) out e herr
    refine ⟨?_, ?_, ?_, ?_⟩
    · rw [resume_eq]
      exact h.1
    · rw [resume_eq]
      exact h.2.1
    · rw [resume_eq]
      exact h.2.2.1
    · rw [resume_eq]
      exact h.2.2.2

theorem claim_C2_witness :
    statusesOf (sampleResumed.sendPrompt "hi" failedOutcome).2
      = [.processing, .idle] ∧
    errorsOf (sampleResumed.sendPrompt "hi" failedOutcome).2
      = ["engine exploded"] ∧
    (∃ pre, (sampleResumed.sendPrompt "hi" failedOutcome).2
       = pre ++ [.emit (.error sampleResumed.sessionId "engine exploded" none),
                 .emit (.sessionStatus sampleResumed.sessionId .idle)]) ∧
    (sampleResumed.sendPrompt "hi" failedOutcome).1.activeQuery = false :=
  (claim_C2 sampleResumed sampleConfig "hi" "c1" "/tmp" failedOutcome
    "engine exploded" rfl rfl).2.1

/-- C3: `close` denies every one of the K pending requests with "Session
closed", all before the terminal `closed` status, empties the table, and a
second `close` resolves nothing further (while still only emitting the
`closed` status). -/
theorem claim_C3 (s : AgentSession) :
    resolvesOf (s.close).2
      = s.pendingRequests.map
          (fun p => (p.1, PermissionResult.deny "Session closed")) ∧
    (∃ pre, (s.close).2
        = pre ++ [.emit (.sessionStatus s.sessionId .closed)] ∧
      resolvesOf pre = s.pendingRequests.map
        (fun p => (p.1, PermissionResult.deny "Session closed"))) ∧
    statusesOf (s.close).2 = [.closed] ∧
    (s.close).1.pendingRequests = [] ∧
    resolvesOf ((s.close).1.close).2 = [] ∧
    statusesOf ((s.close).1.close).2 = [.closed] := by
  have hsplit : (s.close).2
      = ((if s.activeQuery then [Action.closeQuery] else [])
          ++ s.pendingRequests.map
              (fun p => .resolve p.1 (.deny "Session closed")))
        ++ [.emit (.sessionStatus s.sessionId .closed)] := rfl
  have hif : resolvesOf (if s.activeQuery then [Action.closeQuery] else [])
      = [] := by
    by_cases h : s.activeQuery <;> simp [h, resolvesOf]
  have hst : statusesOf (if s.activeQuery then [Action.closeQuery] else [])
      = [] := by
    by_cases h : s.activeQuery <;> simp [h, statusesOf]
  refine ⟨?_, ?_, ?_, rfl, ?_, ?_⟩
  · rw [hsplit, resolvesOf_append, resolvesOf_append, hif, resolvesOf_denies]
    simp [resolvesOf]
  · refine ⟨(if s.activeQuery then [Action.closeQuery] else [])
        ++ s.pendingRequests.map
            (fun p => .resolve p.1 (.deny "Session closed")), hsplit, ?_⟩
    rw [resolvesOf_append, hif, resolvesOf_denies]
    simp
  · rw [hsplit, statusesOf_append, statusesOf_append, hst, statusesOf_denies]
    simp [statusesOf]
  · rfl
  · rfl

/-- C4: the framer skips blank segments silently, and a malformed segment
produces exactly one malformed-input signal without disturbing later
segments: one bad line followed by N good lines yields the invalid signal
followed by the N parsed messages, leaving the buffer empty so framing
continues. -/
theorem claim_C4 (blank bad : List Char) (vs : List JsValue)
    (hbNl : '\n' ∉ blank) (hbWs : ∀ c ∈ blank, jsTrimWs c = true)
    (hmNl : '\n' ∉ bad) (hmBad : jsonParseChars (jsTrim bad) = none)
    (hmNe : (jsTrim bad).isEmpty = false)
    (hvs : ∀ v ∈ vs, numsOk v = true) :
    onData [] (blank ++ '\n' :: joinLines (vs.map encVal))
      = (vs.map FrameOut.msg, []) ∧
    onData [] (bad ++ '\n' :: joinLines (vs.map encVal))
      = (FrameOut.invalid ((jsTrim bad).take 200) :: vs.map FrameOut.msg,
         []) ∧
    (vs.map FrameOut.msg).length = vs.length := by
  refine ⟨?_, ?_, by simp⟩
  · unfold onData
    rw [List.nil_append, frameLoop_blankLine blank _ hbNl hbWs,
      frameLoop_goodLines vs hvs]
  · unfold onData
    rw [List.nil_append, frameLoop_line bad _ hmNl,
      frameLoop_goodLines vs hvs]
    simp [hmBad, hmNe]

theorem claim_C4_witness :
    onData []
        ([' '] ++ '\n'
          :: joinLines ([JsValue.null, JsValue.bool true].map encVal))
      = ([JsValue.null, JsValue.bool true].map FrameOut.msg, []) ∧
    onData []
        (['x'] ++ '\n'
          :: joinLines ([JsValue.null, JsValue.bool true].map encVal))
      = (FrameOut.invalid ((jsTrim ['x']).take 200)
          :: [JsValue.null, JsValue.bool true].map FrameOut.msg, []) ∧
    ([JsValue.null, JsValue.bool true].map FrameOut.msg).length
      = [JsValue.null, JsValue.bool true].length :=
  claim_C4 [' '] ['x'] [JsValue.null, JsValue.bool true]
    (by decide) (by decide) (by decide) rfl rfl
    (by
      intro v hv
      rcases List.mem_cons.mp hv with rfl | hv
      · rfl
      · rcases List.mem_cons.mp hv with rfl | hv
        · rfl
        · simp at hv)

/-- C5: a `start_session` whose id is already in the registry is rejected
with an error scoped to that id; the broker state is unchanged, the existing
registered session keeps its registry entry, and no session is created or
started (no invocation, no status event). -/
theorem claim_C5 (srv : AgentServer) (msg : StartSessionMsg)
    (out : EngineOutcome) (sOld : AgentSession)
    (hreg : List.lookup msg.sessionId srv.sessions = some sOld) :
    srv.startSession msg out
      = (srv, [.emit (.error msg.sessionId
          ("Session \x27" ++ msg.sessionId ++ "\x27 already exists")
          none)]) ∧
    (srv.startSession msg out).1 = srv ∧
    List.lookup msg.sessionId (srv.startSession msg out).1.sessions
      = some sOld ∧
    invokesOf (srv.startSession msg out).2 = [] ∧
    statusesOf (srv.startSession msg out).2 = [] := by
  have hany := any_of_lookup hreg
  have h : srv.startSession msg out
      = (srv, [.emit (.error msg.sessionId
          ("Session \x27" ++ msg.sessionId ++ "\x27 already exists")
          none)]) := by
    unfold AgentServer.startSession
    rw [if_pos hany]
  refine ⟨h, by rw [h], by rw [h]; exact hreg, by rw [h]; rfl, by rw [h]; rfl⟩

theorem claim_C5_witness :
    sampleServer.startSession sampleConfig emptyOutcome
      = (sampleServer, [.emit (.error sampleConfig.sessionId
          ("Session \x27" ++ sampleConfig.sessionId ++ "\x27 already exists")
          none)]) ∧
    List.lookup sampleConfig.sessionId
        (sampleServer.startSession sampleConfig emptyOutcome).1.sessions
      = some (AgentSession.init "s1" "/tmp") :=
  ⟨(claim_C5 sampleServer sampleConfig emptyOutcome
      (AgentSession.init "s1" "/tmp") (lookup_cons_self _ _ _)).1,
   (claim_C5 sampleServer sampleConfig emptyOutcome
      (AgentSession.init "s1" "/tmp") (lookup_cons_self _ _ _)).2.2.1⟩

/-- C6: messages routed to an unknown session id: `send_prompt`,
`interrupt`, `permission_response` and `question_response` are dropped with
only a log line and no outbound event, while `close_session` for an unknown
id is answered with an explicit error event scoped to that id. -/
theorem claim_C6 (srv : AgentServer) (sid prompt rid : String) (b : Behavior)
    (ui : Option JsObj) (m : Option String) (ans : List (String × String))
    (out : EngineOutcome)
    (hunk : List.lookup sid srv.sessions = none) :
    srv.handleMessage (.sendPrompt sid prompt) out
      = (srv, [.logError
          ("[server] session \x27" ++ sid ++ "\x27 not found")]) ∧
    srv.handleMessage (.interrupt sid) out
      = (srv, [.logError
          ("[server] session \x27" ++ sid ++ "\x27 not found")]) ∧
    srv.handleMessage (.permissionResponse sid rid b ui m) out
      = (srv, [.logError
          ("[server] session \x27" ++ sid ++ "\x27 not found")]) ∧
    srv.handleMessage (.questionResponse sid rid ans) out
      = (srv, [.logError
          ("[server] session \x27" ++ sid ++ "\x27 not found")]) ∧
    emitsOf [Action.logError
        ("[server] session \x27" ++ sid ++ "\x27 not found")] = [] ∧
    srv.handleMessage (.closeSession sid) out
      = (srv, [.emit (.error sid
          ("Session \x27" ++ sid ++ "\x27 not found") none)]) := by
  have hw : ∀ f, withSession srv sid f
      = (srv, [.logError
          ("[server] session \x27" ++ sid ++ "\x27 not found")]) := by
    intro f
    unfold withSession
    rw [hunk]
  refine ⟨hw _, hw _, hw _, hw _, rfl, ?_⟩
  show srv.closeSession sid = _
  unfold AgentServer.closeSession
  rw [hunk]

theorem claim_C6_witness :
    emptyServer.handleMessage (.sendPrompt "sX" "hi") emptyOutcome
      = (emptyServer, [.logError
          ("[server] session \x27" ++ "sX" ++ "\x27 not found")]) ∧
    emptyServer.handleMessage (.closeSession "sX") emptyOutcome
      = (emptyServer, [.emit (.error "sX"
          ("Session \x27" ++ "sX" ++ "\x27 not found") none)]) :=
  ⟨(claim_C6 emptyServer "sX" "hi" "r" .deny none none [] emptyOutcome
      rfl).1,
   (claim_C6 emptyServer "sX" "hi" "r" .deny none none [] emptyOutcome
      rfl).2.2.2.2.2⟩

/-- C7: `sendPrompt` before a conversation id has been captured emits an
`error` event and does nothing else — state unchanged, no invocation, no
status transition; once an id has been captured, it starts exactly one
invocation whose options resume that same conversation id. -/
theorem claim_C7 (s : AgentSession) (prompt cid : String)
    (out : EngineOutcome) :
    (s.claudeSessionId = none →
       s.sendPrompt prompt out
         = (s, [.emit (.error s.sessionId
             "No active session to send prompt to" none)]) ∧
       invokesOf (s.sendPrompt prompt out).2 = [] ∧
       statusesOf (s.sendPrompt prompt out).2 = []) ∧
    (s.claudeSessionId = some cid →
       invokesOf (s.sendPrompt prompt out).2
         = [(prompt, resumeOptions s.lastCwd cid)] ∧
       (resumeOptions s.lastCwd cid).resume = some cid ∧
       statusesOf (s.sendPrompt prompt out).2 = [.processing, .idle]) := by
  constructor
  · intro hnone
    have h := sendPrompt_eq_none s prompt out hnone
    exact ⟨h, by rw [h]; rfl, by rw [h]; rfl⟩
  · intro hsome
    have h := sendPrompt_eq_some s prompt cid out hsome
    have ho := runQuery_obs s prompt (resumeOptions s.lastCwd cid) out
    exact ⟨by rw [h]; exact ho.2.2.1, rfl, by rw [h]; exact ho.1⟩

theorem claim_C7_witness :
    (AgentSession.init "s0" "/tmp").sendPrompt "hi" emptyOutcome
      = (AgentSession.init "s0" "/tmp",
         [.emit (.error (AgentSession.init "s0" "/tmp").sessionId
           "No active session to send prompt to" none)]) ∧
    invokesOf (sampleResumed.sendPrompt "hi" emptyOutcome).2
      = [("hi", resumeOptions sampleResumed.lastCwd "c1")] ∧
    (resumeOptions sampleResumed.lastCwd "c1").resume = some "c1" :=
  ⟨((claim_C7 (AgentSession.init "s0" "/tmp") "hi" "c1" emptyOutcome).1
      rfl).1,
   ((claim_C7 sampleResumed "hi" "c1" emptyOutcome).2 rfl).1,
   ((claim_C7 sampleResumed "hi" "c1" emptyOutcome).2 rfl).2.1⟩

/-- C8: for an id present in the table, `resolveQuestion` resolves the
decision as `allow` with the original tool input merged with the answers
(its `answers` property set to the answer record) and removes the entry;
for an absent id it is a no-op. -/
theorem claim_C8 (s s0 : AgentSession) (rid r0 : String)
    (pending : PendingRequest) (ans ans0 : List (String × String))
    (hfound : List.lookup rid s.pendingRequests = some pending)
    (habs : List.lookup r0 s0.pendingRequests = none) :
    (s.resolveQuestion rid ans).2
      = [.resolve rid (.allow (mergeAnswers pending.toolInput ans))] ∧
    mergeAnswers pending.toolInput ans
      = jsSet pending.toolInput "answers" (recordOfPairs ans) ∧
    (s.resolveQuestion rid ans).1.pendingRequests
      = s.pendingRequests.eraseP (fun p => p.1 == rid) ∧
    s0.resolveQuestion r0 ans0 = (s0, []) := by
  have hf := resolveQuestion_found s rid pending ans hfound
  exact ⟨hf.2, rfl, by rw [hf.1], resolveQuestion_absent s0 r0 ans0 habs⟩

theorem claim_C8_witness :
    (sampleSession.resolveQuestion (mkRequestId 1) [("color", "blue")]).2
      = [.resolve (mkRequestId 1)
          (.allow (mergeAnswers [] [("color", "blue")]))] ∧
    (AgentSession.init "s0" "/tmp").resolveQuestion "nope" []
      = (AgentSession.init "s0" "/tmp", []) :=
  ⟨(claim_C8 sampleSession (AgentSession.init "s0" "/tmp") (mkRequestId 1)
      "nope" { toolInput := [] } [("color", "blue")] []
      (lookup_cons_self _ _ _) rfl).1,
   (claim_C8 sampleSession (AgentSession.init "s0" "/tmp") (mkRequestId 1)
      "nope" { toolInput := [] } [("color", "blue")] []
      (lookup_cons_self _ _ _) rfl).2.2.2⟩

/-- C9: per-kind wire round-trip: for every protocol message, `send` frames
the JSON encoding with one newline, the framer recovers exactly that JSON
value leaving an empty buffer, and decoding the value yields the original
message. -/
theorem claim_C9 (m : ProtocolMessage) (hwf : numsOk m.toJson = true) :
    send false m.toJson = some (serializeMsg m) ∧
    onData [] (serializeMsg m) = ([.msg m.toJson], []) ∧
    fromJsonMsg m.toJson = some m := by
  refine ⟨rfl, ?_, fromJsonMsg_toJson m⟩
  show onData [] (encVal m.toJson ++ ['\n']) = _
  exact frame_roundtrip m.toJson hwf

theorem claim_C9_witness :
    send false (ProtocolMessage.inb (.interrupt "s1")).toJson
      = some (serializeMsg (.inb (.interrupt "s1"))) ∧
    onData [] (serializeMsg (ProtocolMessage.inb (.interrupt "s1")))
      = ([.msg (ProtocolMessage.inb (.interrupt "s1")).toJson], []) ∧
    fromJsonMsg (ProtocolMessage.inb (.interrupt "s1")).toJson
      = some (.inb (.interrupt "s1")) :=
  claim_C9 (.inb (.interrupt "s1")) rfl

/-- C10: `resume_session` for an already-registered id is not rejected: no
error event is produced, the registry entry is silently overwritten with a
freshly created session (empty pending table, counter zero), and the
displaced session is neither closed nor has any of its pending requests
resolved. -/
theorem claim_C10 (srv : AgentServer) (sid cid prompt cwd : String)
    (out : EngineOutcome) (sOld : AgentSession)
    (hreg : List.lookup sid srv.sessions = some sOld)
    (herr : out.err = none) :
    resolvesOf (srv.resumeSession sid cid prompt cwd out).2 = [] ∧
    errorsOf (srv.resumeSession sid cid prompt cwd out).2 = [] ∧
    SessionStatus.closed
      ∉ statusesOf (srv.resumeSession sid cid prompt cwd out).2 ∧
    List.lookup sid (srv.resumeSession sid cid prompt cwd out).1.sessions
      = some ((AgentSession.init sid srv.processCwd).resume cid prompt cwd
          out).1 ∧
    ((AgentSession.init sid srv.processCwd).resume cid prompt cwd
        out).1.pendingRequests = [] ∧
    ((AgentSession.init sid srv.processCwd).resume cid prompt cwd
        out).1.requestCounter = 0 := by
  have ho := runQuery_obs
    { AgentSession.init sid srv.processCwd with lastCwd := cwd }
    prompt (resumeOptions cwd cid) out
  have hsnd := resumeSession_snd srv sid cid prompt cwd out
  refine ⟨?_, ?_, ?_, ?_, ?_, ?_⟩
  · rw [hsnd, resume_eq]
    exact ho.2.1
  · rw [hsnd, resume_eq, ho.2.2.2, herr]
  · rw [hsnd, resume_eq, ho.1]
    decide
  · rw [resumeSession_sessions]
    exact lookup_mapSet srv.sessions sid _
  · rw [resume_eq, (runQuery_state _ _ _ _).1]
    rfl
  · rw [resume_eq, (runQuery_state _ _ _ _).2.1]
    rfl

theorem claim_C10_witness :
    List.lookup "s1"
        (sampleServer.resumeSession "s1" "c9" "hi" "/w" emptyOutcome).1.sessions
      = some ((AgentSession.init "s1" sampleServer.processCwd).resume "c9"
          "hi" "/w" emptyOutcome).1 ∧
    ((AgentSession.init "s1" sampleServer.processCwd).resume "c9" "hi" "/w"
        emptyOutcome).1.pendingRequests = [] ∧
    ((AgentSession.init "s1" sampleServer.processCwd).resume "c9" "hi" "/w"
        emptyOutcome).1.requestCounter = 0 :=
  ⟨(claim_C10 sampleServer "s1" "c9" "hi" "/w" emptyOutcome
      (AgentSession.init "s1" "/tmp") (lookup_cons_self _ _ _) rfl).2.2.2.1,
   (claim_C10 sampleServer "s1" "c9" "hi" "/w" emptyOutcome
      (AgentSession.init "s1" "/tmp") (lookup_cons_self _ _ _) rfl).2.2.2.2.1,
   (claim_C10 sampleServer "s1" "c9" "hi" "/w" emptyOutcome
      (AgentSession.init "s1" "/tmp") (lookup_cons_self _ _ _) rfl).2.2.2.2.2⟩

end Maelstrom
